import Mathlib

/-!
Verification of the tlog structured-logging library: the protobuf varint
codec, the console, JSON and binary event encoders, the location
deduplication machinery, the labels algebra and the rotating file sink,
shallowly embedded from the Go sources (writers.go, rotated/file.go and the
package file holding the Labels operations).

Go byte slices are modelled as lists of naturals; a Go cast byte(x) becomes
x % 256.  Machine integers are modelled as Nat (uint64) or Int (int64) with
explicit wrapping where the source can overflow.
-/

namespace Tlog

/-- Byte stream: a Go byte slice, each entry a natural below 256. -/
abbrev Bytes := List Nat

/-- Go string as its list of characters (the sources only manipulate
ASCII-transparent operations on them). -/
abbrev GoStr := List Char

/-- ASCII string literal to bytes. -/
def strBytes (s : String) : Bytes :=
  s.toList.map Char.toNat

/-- Embedding of appendVarint (writers.go lines 897-924): protobuf unsigned
varint append, a ten-way switch on the magnitude of v.  Each source case is
reproduced verbatim; Go byte(e) casts become e % 256. -/
def appendVarint (b : Bytes) (v : Nat) : Bytes :=
  if v < 0x80 then b ++ [v % 256]
  else if v < 1 <<< 14 then b ++ [(v ||| 0x80) % 256, (v >>> 7) % 256]
  else if v < 1 <<< 21 then
    b ++ [(v ||| 0x80) % 256, ((v >>> 7) ||| 0x80) % 256, (v >>> 14) % 256]
  else if v < 1 <<< 28 then
    b ++ [(v ||| 0x80) % 256, ((v >>> 7) ||| 0x80) % 256, ((v >>> 14) ||| 0x80) % 256,
      (v >>> 21) % 256]
  else if v < 1 <<< 35 then
    b ++ [(v ||| 0x80) % 256, ((v >>> 7) ||| 0x80) % 256, ((v >>> 14) ||| 0x80) % 256,
      ((v >>> 21) ||| 0x80) % 256, (v >>> 28) % 256]
  else if v < 1 <<< 42 then
    b ++ [(v ||| 0x80) % 256, ((v >>> 7) ||| 0x80) % 256, ((v >>> 14) ||| 0x80) % 256,
      ((v >>> 21) ||| 0x80) % 256, ((v >>> 28) ||| 0x80) % 256, (v >>> 35) % 256]
  else if v < 1 <<< 49 then
    b ++ [(v ||| 0x80) % 256, ((v >>> 7) ||| 0x80) % 256, ((v >>> 14) ||| 0x80) % 256,
      ((v >>> 21) ||| 0x80) % 256, ((v >>> 28) ||| 0x80) % 256, ((v >>> 35) ||| 0x80) % 256,
      (v >>> 42) % 256]
  else if v < 1 <<< 56 then
    b ++ [(v ||| 0x80) % 256, ((v >>> 7) ||| 0x80) % 256, ((v >>> 14) ||| 0x80) % 256,
      ((v >>> 21) ||| 0x80) % 256, ((v >>> 28) ||| 0x80) % 256, ((v >>> 35) ||| 0x80) % 256,
      ((v >>> 42) ||| 0x80) % 256, (v >>> 49) % 256]
  else if v < 1 <<< 63 then
    b ++ [(v ||| 0x80) % 256, ((v >>> 7) ||| 0x80) % 256, ((v >>> 14) ||| 0x80) % 256,
      ((v >>> 21) ||| 0x80) % 256, ((v >>> 28) ||| 0x80) % 256, ((v >>> 35) ||| 0x80) % 256,
      ((v >>> 42) ||| 0x80) % 256, ((v >>> 49) ||| 0x80) % 256, (v >>> 56) % 256]
  else
    b ++ [(v ||| 0x80) % 256, ((v >>> 7) ||| 0x80) % 256, ((v >>> 14) ||| 0x80) % 256,
      ((v >>> 21) ||| 0x80) % 256, ((v >>> 28) ||| 0x80) % 256, ((v >>> 35) ||| 0x80) % 256,
      ((v >>> 42) ||| 0x80) % 256, ((v >>> 49) ||| 0x80) % 256, (v >>> 56) % 256,
      (v >>> 63) % 256]

/-- Embedding of appendTagVarint (writers.go lines 926-953): a one-byte tag
followed by the varint of v, same ten-way switch as appendVarint. -/
def appendTagVarint (b : Bytes) (t : Nat) (v : Nat) : Bytes :=
  b ++ t % 256 :: appendVarint [] v

/-- Embedding of varintSize (writers.go lines 955-978). -/
def varintSize (v : Nat) : Nat :=
  if v < 0x80 then 1
  else if v < 1 <<< 14 then 2
  else if v < 1 <<< 21 then 3
  else if v < 1 <<< 28 then 4
  else if v < 1 <<< 35 then 5
  else if v < 1 <<< 42 then 6
  else if v < 1 <<< 49 then 7
  else if v < 1 <<< 56 then 8
  else if v < 1 <<< 63 then 9
  else 10

/-- Standard protobuf varint decoder over a byte stream: little-endian
7-bit groups, high bit of a byte marks continuation. -/
def varintDecode : Bytes → Option (Nat × Bytes)
  | [] => none
  | b :: rest =>
    if b < 0x80 then some (b, rest)
    else
      match varintDecode rest with
      | some (v, r) => some (b % 0x80 + 0x80 * (v : Nat), r)
      | none => none

/-- Reference recursive varint encoder used inside the proofs: peel seven
bits at a time, setting the continuation bit on every byte but the last. -/
def varintRef (v : Nat) : Bytes :=
  if v < 128 then [v]
  else (v % 128 + 128) :: varintRef (v / 128)
decreasing_by exact Nat.div_lt_self (by omega) (by omega)


/-! ### Labels: ordered key/value list with tombstones (Set, Get, Del,
Merge from the package file). -/

/-- A single label entry, a Go string. -/
abbrev Label := GoStr

/-- Label list, an ordered sequence of entries. -/
abbrev Labels := List Label

/-- Entry matched by the scan in Labels.Set and Labels.Del: the tombstone
for k, the bare key k, or an entry with prefix k=. -/
def SetMatch (k l : Label) : Prop :=
  l = '=' :: k ∨ l = k ∨ (k ++ ['=']).isPrefixOf l = true

/-- Entry matched by the scan in Labels.Get: the bare key k or an entry
with prefix k=. -/
def GetMatch (k l : Label) : Prop :=
  l = k ∨ (k ++ ['=']).isPrefixOf l = true

instance (k l : Label) : Decidable (SetMatch k l) := by
  unfold SetMatch; infer_instance

instance (k l : Label) : Decidable (GetMatch k l) := by
  unfold GetMatch; infer_instance

/-- The value written by Labels.Set: k when v is empty, else k=v. -/
def labelVal (k v : Label) : Label :=
  if v = [] then k else k ++ '=' :: v

/-- The scan loop of Labels.Set (package file lines 961-971): replace the
first entry matching k (tombstone, bare key or key=value) with val, else
append val at the end. -/
def labelsSetGo (val k : Label) : Labels → Labels
  | [] => [val]
  | l :: rest =>
    if l = '=' :: k then val :: rest
    else if l = k ∨ (k ++ ['=']).isPrefixOf l = true then val :: rest
    else l :: labelsSetGo val k rest

/-- Embedding of Labels.Set (package file lines 955-972). -/
def labelsSet (ls : Labels) (k v : Label) : Labels :=
  labelsSetGo (labelVal k v) k ls

/-- Embedding of Labels.Get (package file lines 974-983): the first entry
equal to k yields ("", true); the first entry with prefix k= yields the
remainder after k=; otherwise ("", false). -/
def labelsGet (ls : Labels) (k : Label) : GoStr × Bool :=
  match ls with
  | [] => ([], false)
  | l :: rest =>
    if l = k then ([], true)
    else if (k ++ ['=']).isPrefixOf l = true then (l.drop (k.length + 1), true)
    else labelsGet rest k

/-- Embedding of Labels.Del (package file lines 985-994): return unchanged
at the first tombstone for k; otherwise overwrite every entry for k with
the tombstone, scanning the whole list. -/
def labelsDel (ls : Labels) (k : Label) : Labels :=
  match ls with
  | [] => []
  | l :: rest =>
    if l = '=' :: k then l :: rest
    else if l = k ∨ (k ++ ['=']).isPrefixOf l = true then
      ('=' :: k) :: labelsDel rest k
    else l :: labelsDel rest k

/-- strings.SplitN(s, "=", 2): one element when s has no separator, else
the part before the first = and the remainder after it. -/
def splitN2Eq (s : Label) : List Label :=
  match s.findIdx? (fun c => c == '=') with
  | some i => [s.take i, s.drop (i + 1)]
  | none => [s]

/-- Embedding of Labels.Merge (package file lines 996-1008).  An entry
without a separator makes strings.SplitN return a one-element slice and
the source then reads kv[1], an index out of range panic, modelled as
none. -/
def labelsMerge (ls : Labels) : Labels → Option Labels
  | [] => some ls
  | add :: rest =>
    if add = [] then labelsMerge ls rest
    else
      match splitN2Eq add with
      | [k, v] =>
        if k = [] then labelsMerge (labelsDel ls v) rest
        else labelsMerge (labelsSet ls k v) rest
      | _ => none

/-! ### Rotating file sink (rotated/file.go). -/

/-- State of the rotating File sink in an environment where closing,
naming and opening files always succeed: whether a file is open, the byte
counter nbytes, and the contents of the files created so far, in creation
order. -/
structure FileState where
  isOpen : Bool
  nbytes : Nat
  files : List Bytes
deriving DecidableEq

/-- The state of a freshly created sink (rotated.Create): no file open,
zero counter. -/
def fileInit : FileState :=
  { isOpen := false, nbytes := 0, files := [] }

/-- Append p to the most recent file. -/
def appendToLast (p : Bytes) : List Bytes → List Bytes
  | [] => [p]
  | [f] => [f ++ p]
  | f :: rest => f :: appendToLast p rest

/-- Embedding of File.rotate (rotated/file.go lines 54-77) in the
non-erroring environment: close the current file and open a fresh empty
one.  The source never touches nbytes here. -/
def fileRotate (s : FileState) : FileState :=
  { s with isOpen := true, files := s.files ++ [[]] }

/-- Embedding of File.Write (rotated/file.go lines 34-52): rotate when no
file is open or when nbytes + len(p) exceeds MaxSize, then write p to the
current file and advance nbytes by the bytes accepted. -/
def fileWrite (maxSize : Nat) (s : FileState) (p : Bytes) : FileState :=
  let s2 := if s.isOpen = false ∨ maxSize < s.nbytes + p.length then fileRotate s else s
  { s2 with nbytes := s2.nbytes + p.length, files := appendToLast p s2.files }

/-- Run a sequence of writes against the rotating sink. -/
def fileRun (maxSize : Nat) (s : FileState) : List Bytes → FileState
  | [] => s
  | p :: rest => fileRun maxSize (fileWrite maxSize s p) rest

/-- Comparison model following the spec words for rotation (the sink
"resets byte counter" on rotation); identical to fileRotate except for the
counter. -/
def fileRotateSpec (s : FileState) : FileState :=
  { isOpen := true, nbytes := 0, files := s.files ++ [[]] }

/-- File.Write under the spec rotation semantics of fileRotateSpec. -/
def fileWriteSpec (maxSize : Nat) (s : FileState) (p : Bytes) : FileState :=
  let s2 := if s.isOpen = false ∨ maxSize < s.nbytes + p.length then fileRotateSpec s
    else s
  { s2 with nbytes := s2.nbytes + p.length, files := appendToLast p s2.files }

/-- Run of fileWriteSpec. -/
def fileRunSpec (maxSize : Nat) (s : FileState) : List Bytes → FileState
  | [] => s
  | p :: rest => fileRunSpec maxSize (fileWriteSpec maxSize s p) rest

/-! ### Event model shared by the encoders (writers.go). -/

/-- Call-site token; zero means unknown. -/
abbrev Location := Nat

/-- Span ID, the 16-byte array of the ID type. -/
abbrev SpanID := List Nat

/-- The zero span ID. -/
def zeroID : SpanID := List.replicate 16 0

/-- Message event: location token, time in nanoseconds, format bytes and
an optional argument list (arguments are opaque to the encoders and only
consumed by the external printf). -/
structure Msg (α : Type) where
  loc : Location
  time : Int
  format : Bytes
  args : Option (List α)

/-- Metric event; value is carried as its IEEE-754 bit pattern, which is
what the binary encoder writes; the JSON encoder renders it through the
external float formatter. -/
structure GoMetric where
  name : Bytes
  value : Nat
  labels : List Bytes

/-- External collaborators of the encoders, modelled from the spec: the
printf formatter (AppendPrintf), the location resolver NameFileLine and
Entry, the splitTime clock decomposition (the Bool argument tells whether
the LUTC flag converted the time to UTC first) with the nanosecond
accessor, the wall clock now, the stack-walking caller lookup, the float
formatters of strconv, the ID FormatTo renderers, and the injections that
the console Labels and Metric helpers use to build printf argument lists.
All these live outside the embedded source files; encoder theorems hold
for every such environment. -/
structure Ctx (α : Type) where
  pf : Bytes → List α → Bytes
  nfl : Location → Bytes × Bytes × Nat
  entry : Location → Nat
  split : Bool → Int → Nat × Nat × Nat × Nat × Nat × Nat
  nsec : Int → Nat
  nowNs : Int
  caller : Location
  fmtFloat : Nat → Bytes
  fmtElapsedMs : Int → Bytes
  labelsArg : List Bytes → α
  metricArgs : Bytes → Nat → List Bytes → List α

/-- Go int64 of a Nat (wrapping conversion used for locations rendered via
strconv.AppendInt(int64(l))). -/
def toI64 (n : Nat) : Int :=
  ((n : Int) + 2 ^ 63) % 2 ^ 64 - 2 ^ 63

/-- Go uint64 of an Int (wrapping conversion uint64(x)). -/
def toU64 (i : Int) : Nat :=
  (i % (2 ^ 64 : Int)).toNat

/-- Decimal digits of a natural number, structurally recursive on a fuel
bound so that the kernel evaluates it. -/
def decNatF : Nat → Nat → Bytes
  | 0, _ => []
  | fuel + 1, n => if n < 10 then [48 + n] else decNatF fuel (n / 10) ++ [48 + n % 10]

/-- Decimal digits of a natural number, the rendering of
strconv.AppendUint. -/
def decNat (n : Nat) : Bytes :=
  decNatF (n + 1) n

/-- Decimal rendering of strconv.AppendInt. -/
def decInt (i : Int) : Bytes :=
  if i < 0 then 45 :: decNat (-i).toNat else decNat i.toNat

/-- Lowercase hex digit. -/
def hexDigit (n : Nat) : Nat :=
  if n < 10 then 48 + n else 87 + n

/-- Modelled from the spec: ID.FormatTo with the x verb renders the
16-byte span ID as exactly 32 lowercase hex characters (FormatTo itself is
outside the embedded sources). -/
def idHex (sid : SpanID) : Bytes :=
  (sid.map (fun b => [hexDigit (b / 16 % 16), hexDigit (b % 16)])).flatten

/-- Modelled from the spec: ID.FormatTo with the v verb fills a
w-character column, w underscores for the zero ID and lowercase hex
otherwise. -/
def idV (w : Nat) (sid : SpanID) : Bytes :=
  if sid = zeroID then List.replicate w 95 else (idHex sid).take w

/-- Modelled from the spec: appendSafe escapes quote, backslash and bytes
below 0x20 as six-character u-escapes; all other bytes pass through. -/
def safeEsc (s : Bytes) : Bytes :=
  (s.map (fun c =>
    if c = 34 ∨ c = 92 ∨ c < 32 then
      [92, 117, hexDigit (c / 4096 % 16), hexDigit (c / 256 % 16),
        hexDigit (c / 16 % 16), hexDigit (c % 16)]
    else [c])).flatten

/-- Little-endian eight-byte encoding, binary.LittleEndian.PutUint64. -/
def le64 (n : Nat) : Bytes :=
  [n % 256, n / 256 % 256, n / 256 ^ 2 % 256, n / 256 ^ 3 % 256,
    n / 256 ^ 4 % 256, n / 256 ^ 5 % 256, n / 256 ^ 6 % 256, n / 256 ^ 7 % 256]

/-- Modelled from the spec: a minimal printf used to instantiate the
environment concretely in witnesses — each %d directive is replaced by the
decimal rendering of the next numeric argument, all other bytes are
copied. -/
def modelPrintf : Bytes → List Nat → Bytes
  | [], _ => []
  | 37 :: 100 :: rest, a :: args => decNat a ++ modelPrintf rest args
  | c :: rest, args => c :: modelPrintf rest args

/-- A concrete environment used by witnesses and counterexamples: the
resolver maps every location to function name main.main, file
/a/b/c/main.go, line 17, and the clock decomposes every instant to
2020-01-02 03:04:05. -/
def sampleCtx : Ctx Nat :=
  { pf := modelPrintf
    nfl := fun _ => (strBytes "main.main", strBytes "/a/b/c/main.go", 17)
    entry := fun l => l
    split := fun _ _ => (2020, 1, 2, 3, 4, 5)
    nsec := fun _ => 0
    nowNs := 0
    caller := 5
    fmtFloat := fun _ => [48]
    fmtElapsedMs := fun _ => [48]
    labelsArg := fun _ => 0
    metricArgs := fun _ _ _ => [] }

/-! ### JSON encoder payloads (writers.go JSONWriter). -/

/-- Record written by JSONWriter.Labels (writers.go lines 441-472). -/
def jsonLabelsPayload (ls : List Bytes) (sid : SpanID) : Bytes :=
  strBytes "\x7b\"L\":\x7b"
  ++ (if sid ≠ zeroID then strBytes "\"s\":\"" ++ idHex sid ++ strBytes "\"," else [])
  ++ strBytes "\"L\":["
  ++ (match ls with
      | [] => []
      | l :: rest =>
        [34] ++ safeEsc l ++ [34]
        ++ (rest.map (fun l2 => [44, 34] ++ safeEsc l2 ++ [34])).flatten)
  ++ strBytes "]\x7d\x7d\n"

/-- Record written for the message event itself by JSONWriter.Message
(writers.go lines 475-514): the location key l appears only for a nonzero
location. -/
def jsonMessagePayload {α : Type} (c : Ctx α) (m : Msg α) (sid : SpanID) : Bytes :=
  strBytes "\x7b\"m\":\x7b"
  ++ (if sid ≠ zeroID then strBytes "\"s\":\"" ++ idHex sid ++ strBytes "\"," else [])
  ++ strBytes "\"t\":" ++ decInt m.time
  ++ (if m.loc ≠ 0 then strBytes ",\"l\":" ++ decInt (toI64 m.loc) else [])
  ++ strBytes ",\"m\":\""
  ++ (match m.args with
      | some a => c.pf m.format a
      | none => m.format)
  ++ strBytes "\"\x7d\x7d\n"

/-- Record written by JSONWriter.Metric (writers.go lines 516-554). -/
def jsonMetricPayload {α : Type} (c : Ctx α) (m : GoMetric) (sid : SpanID) : Bytes :=
  strBytes "\x7b\"v\":\x7b"
  ++ (if sid ≠ zeroID then strBytes "\"s\":\"" ++ idHex sid ++ strBytes "\"," else [])
  ++ strBytes "\"n\":\"" ++ safeEsc m.name
  ++ strBytes "\",\"v\":" ++ c.fmtFloat m.value
  ++ (if m.labels ≠ [] then
      strBytes ",\"L\":["
      ++ (match m.labels with
          | [] => []
          | l :: rest =>
            [34] ++ safeEsc l ++ [34]
            ++ (rest.map (fun l2 => [44, 34] ++ safeEsc l2 ++ [34])).flatten)
      ++ [93]
    else [])
  ++ strBytes "\x7d\x7d\n"

/-- Record written for the event itself by JSONWriter.SpanStarted
(writers.go lines 557-589): the l key is written even for a zero
location. -/
def jsonSpanStartedPayload (sid par : SpanID) (st : Int)
    (loc : Location) : Bytes :=
  strBytes "\x7b\"s\":\x7b\"i\":\"" ++ idHex sid ++ [34]
  ++ strBytes ",\"s\":" ++ decInt st
  ++ strBytes ",\"l\":" ++ decInt (toI64 loc)
  ++ (if par ≠ zeroID then strBytes ",\"p\":\"" ++ idHex par ++ [34] else [])
  ++ strBytes "\x7d\x7d\n"

/-- Record written by JSONWriter.SpanFinished (writers.go lines 592-610). -/
def jsonSpanFinishedPayload (sid : SpanID) (el : Int) : Bytes :=
  strBytes "\x7b\"f\":\x7b\"i\":\"" ++ idHex sid ++ [34]
  ++ strBytes ",\"e\":" ++ decInt el
  ++ strBytes "\x7d\x7d\n"

/-- Location record written by JSONWriter.location (writers.go lines
612-641) for a nonzero location. -/
def jsonLocationPayload {α : Type} (c : Ctx α) (l : Location) : Bytes :=
  let r := c.nfl l
  strBytes "\x7b\"l\":\x7b\"p\":" ++ decInt (toI64 l)
  ++ strBytes ",\"e\":" ++ decInt (toI64 (c.entry l))
  ++ strBytes ",\"f\":\"" ++ safeEsc r.2.1
  ++ strBytes "\",\"l\":" ++ decInt (r.2.2 : Int)
  ++ strBytes ",\"n\":\"" ++ safeEsc r.1
  ++ strBytes "\"\x7d\x7d\n"

/-! ### Binary encoder payloads (writers.go ProtoWriter). -/

/-- Frame written by ProtoWriter.Labels (writers.go lines 652-686). -/
def protoLabelsPayload (ls : List Bytes) (sid : SpanID) : Bytes :=
  let sz := (if sid ≠ zeroID then 1 + varintSize sid.length + sid.length else 0)
    + (ls.map (fun l => 1 + varintSize l.length + l.length)).sum
  appendVarint [] (1 + varintSize sz + sz)
  ++ (appendTagVarint [] (1 <<< 3 ||| 2) sz
  ++ (if sid ≠ zeroID then appendTagVarint [] (1 <<< 3 ||| 2) sid.length ++ sid else [])
  ++ (ls.map (fun l => appendTagVarint [] (2 <<< 3 ||| 2) l.length ++ l)).flatten)

/-- Frame written for the message event by ProtoWriter.Message (writers.go
lines 689-750).  The source formats the text first, then builds the frame
header in place and relocates the text to its final offset past the
metadata with a byte copy; the bytes finally written are exactly this
concatenation. -/
def protoMessagePayload {α : Type} (c : Ctx α) (m : Msg α) (sid : SpanID) : Bytes :=
  let text := match m.args with
    | some a => c.pf m.format a
    | none => m.format
  let l := text.length
  let sz := (if sid ≠ zeroID then 1 + varintSize sid.length + sid.length else 0)
    + (if m.loc ≠ 0 then 1 + varintSize m.loc else 0)
    + (1 + 8)
    + (1 + varintSize l + l)
  appendVarint [] (1 + varintSize sz + sz)
  ++ (appendTagVarint [] (3 <<< 3 ||| 2) sz
  ++ (if sid ≠ zeroID then appendTagVarint [] (1 <<< 3 ||| 2) sid.length ++ sid else [])
  ++ (if m.loc ≠ 0 then appendTagVarint [] (2 <<< 3 ||| 0) m.loc else [])
  ++ ((3 <<< 3 ||| 1) :: le64 (toU64 m.time))
  ++ appendTagVarint [] (4 <<< 3 ||| 2) l
  ++ text)

/-- Frame written by ProtoWriter.Metric (writers.go lines 752-791). -/
def protoMetricPayload (m : GoMetric) (sid : SpanID) : Bytes :=
  let sz := (if sid ≠ zeroID then 1 + varintSize sid.length + sid.length else 0)
    + (1 + varintSize m.name.length + m.name.length)
    + (1 + 8)
    + (m.labels.map (fun l => 1 + varintSize l.length + l.length)).sum
  appendVarint [] (1 + varintSize sz + sz)
  ++ (appendTagVarint [] (6 <<< 3 ||| 2) sz
  ++ (if sid ≠ zeroID then appendTagVarint [] (1 <<< 3 ||| 2) sid.length ++ sid else [])
  ++ appendTagVarint [] (2 <<< 3 ||| 2) m.name.length ++ m.name
  ++ ((3 <<< 3 ||| 1) :: le64 m.value)
  ++ (m.labels.map (fun l => appendTagVarint [] (4 <<< 3 ||| 2) l.length ++ l)).flatten)

/-- Frame written for the event by ProtoWriter.SpanStarted (writers.go
lines 794-835). -/
def protoSpanStartedPayload (sid par : SpanID) (st : Int) (loc : Location) : Bytes :=
  let sz := (1 + varintSize sid.length + sid.length)
    + (if par ≠ zeroID then 1 + varintSize par.length + par.length else 0)
    + (if loc ≠ 0 then 1 + varintSize loc else 0)
    + (1 + 8)
  appendVarint [] (1 + varintSize sz + sz)
  ++ (appendTagVarint [] (4 <<< 3 ||| 2) sz
  ++ appendTagVarint [] (1 <<< 3 ||| 2) sid.length ++ sid
  ++ (if par ≠ zeroID then appendTagVarint [] (2 <<< 3 ||| 2) par.length ++ par else [])
  ++ (if loc ≠ 0 then appendTagVarint [] (3 <<< 3 ||| 0) loc else [])
  ++ ((4 <<< 3 ||| 1) :: le64 (toU64 st)))

/-- Frame written by ProtoWriter.SpanFinished (writers.go lines 838-859). -/
def protoSpanFinishedPayload (sid : SpanID) (el : Int) : Bytes :=
  let sz := (1 + varintSize sid.length + sid.length)
    + (1 + varintSize (toU64 el))
  appendVarint [] (1 + varintSize sz + sz)
  ++ (appendTagVarint [] (5 <<< 3 ||| 2) sz
  ++ appendTagVarint [] (1 <<< 3 ||| 2) sid.length ++ sid
  ++ appendTagVarint [] (2 <<< 3 ||| 0) (toU64 el))

/-- Location frame written by ProtoWriter.location (writers.go lines
861-895) for a nonzero location. -/
def protoLocationPayload {α : Type} (c : Ctx α) (l : Location) : Bytes :=
  let r := c.nfl l
  let sz := (1 + varintSize l)
    + (1 + varintSize (c.entry l))
    + (1 + varintSize r.1.length + r.1.length)
    + (1 + varintSize r.2.1.length + r.2.1.length)
    + (1 + varintSize r.2.2)
  appendVarint [] (1 + varintSize sz + sz)
  ++ (appendTagVarint [] (2 <<< 3 ||| 2) sz
  ++ appendTagVarint [] (1 <<< 3 ||| 0) l
  ++ appendTagVarint [] (2 <<< 3 ||| 0) (c.entry l)
  ++ appendTagVarint [] (3 <<< 3 ||| 2) r.1.length ++ r.1
  ++ appendTagVarint [] (4 <<< 3 ||| 2) r.2.1.length ++ r.2.1
  ++ appendTagVarint [] (5 <<< 3 ||| 0) r.2.2)


/-! ### Encoder operations, records and location deduplication
(JSONWriter and ProtoWriter share the same dedup structure: a set of
already-described locations, checked before Message and SpanStarted,
with the location record buffered in front of the event record and both
flushed in the single Write of the operation). -/

/-- One call of the five-operation Writer interface. -/
inductive Op (α : Type) where
  | labels (ls : List Bytes) (sid : SpanID)
  | message (m : Msg α) (sid : SpanID)
  | metric (mt : GoMetric) (sid : SpanID)
  | spanStarted (sid par : SpanID) (st : Int) (loc : Location)
  | spanFinished (sid : SpanID) (el : Int)

/-- One record inside an operation's single write: either a location
record describing loc, or an event record that references ref (the
location field it carries, none when the event has a zero location). -/
inductive Item where
  | locRec (l : Location) (payload : Bytes)
  | eventRec (ref : Option Location) (payload : Bytes)
deriving DecidableEq

/-- Payload bytes of a record. -/
def Item.payload : Item → Bytes
  | .locRec _ p => p
  | .eventRec _ p => p

/-- The per-event record builders of one encoder. -/
structure EncFns (α : Type) where
  locPayload : Location → Bytes
  labelsPayload : List Bytes → SpanID → Bytes
  msgPayload : Msg α → SpanID → Bytes
  metricPayload : GoMetric → SpanID → Bytes
  startPayload : SpanID → SpanID → Int → Location → Bytes
  finishPayload : SpanID → Int → Bytes

/-- Effect of the writers' location method (JSONWriter.location,
ProtoWriter.location): a zero location returns immediately; otherwise the
location record is buffered and the location is added to the dedup set. -/
def locEffect {α : Type} (f : EncFns α) (seen : List Location) (l : Location) :
    List Location × List Item :=
  if l = 0 then (seen, [])
  else (l :: seen, [Item.locRec l (f.locPayload l)])

/-- One Writer operation of a deduplicating encoder: Message and
SpanStarted first consult the dedup set and buffer a location record for
an unseen location, then the event record follows in the same write; the
other operations write their single record. -/
def encStep {α : Type} (f : EncFns α) (seen : List Location) :
    Op α → List Location × List Item
  | .labels ls sid => (seen, [Item.eventRec none (f.labelsPayload ls sid)])
  | .message m sid =>
    let r := if m.loc ∈ seen then (seen, ([] : List Item)) else locEffect f seen m.loc
    (r.1, r.2 ++ [Item.eventRec (if m.loc = 0 then none else some m.loc)
      (f.msgPayload m sid)])
  | .metric mt sid => (seen, [Item.eventRec none (f.metricPayload mt sid)])
  | .spanStarted sid par st loc =>
    let r := if loc ∈ seen then (seen, ([] : List Item)) else locEffect f seen loc
    (r.1, r.2 ++ [Item.eventRec (if loc = 0 then none else some loc)
      (f.startPayload sid par st loc)])
  | .spanFinished sid el => (seen, [Item.eventRec none (f.finishPayload sid el)])

/-- Run of a deduplicating encoder over an operation sequence, collecting
the flat record stream (the output byte stream is the concatenation of the
record payloads in this order). -/
def encRun {α : Type} (f : EncFns α) (seen : List Location) :
    List (Op α) → List Location × List Item
  | [] => (seen, [])
  | op :: rest =>
    let r := encStep f seen op
    let r2 := encRun f r.1 rest
    (r2.1, r.2 ++ r2.2)

/-- The JSONWriter record builders. -/
def jsonFns {α : Type} (c : Ctx α) : EncFns α :=
  { locPayload := jsonLocationPayload c
    labelsPayload := jsonLabelsPayload
    msgPayload := jsonMessagePayload c
    metricPayload := jsonMetricPayload c
    startPayload := jsonSpanStartedPayload
    finishPayload := jsonSpanFinishedPayload }

/-- The ProtoWriter record builders. -/
def protoFns {α : Type} (c : Ctx α) : EncFns α :=
  { locPayload := protoLocationPayload c
    labelsPayload := protoLabelsPayload
    msgPayload := protoMessagePayload c
    metricPayload := protoMetricPayload
    startPayload := protoSpanStartedPayload
    finishPayload := protoSpanFinishedPayload }

/-- Is this record the location record for L. -/
def isLocFor (L : Location) : Item → Bool
  | .locRec l _ => l == L
  | .eventRec _ _ => false

/-- Is this an event record referencing L. -/
def refsLoc (L : Location) : Item → Bool
  | .locRec _ _ => false
  | .eventRec r _ => r == some L

/-- Does this operation reference location L (a Message or SpanStarted
carrying L). -/
def opRefs {α : Type} (L : Location) : Op α → Bool
  | .message m _ => m.loc == L
  | .spanStarted _ _ _ loc => loc == L
  | _ => false

/-- The record stream contains exactly one location record for L, placed
before every event record referencing L: a decomposition around the unique
location record whose prefix holds neither a location record for L nor a
reference to L and whose suffix holds no further location record for L. -/
def LocDedup (L : Location) (its : List Item) : Prop :=
  ∃ pre pay post, its = pre ++ Item.locRec L pay :: post ∧
    (∀ i ∈ pre, isLocFor L i = false ∧ refsLoc L i = false) ∧
    (∀ i ∈ post, isLocFor L i = false)

/-- A self-delimiting binary frame: an outer varint length prefix followed
by exactly that many body bytes. -/
def Framed (p : Bytes) : Prop :=
  ∃ n body, p = appendVarint [] n ++ body ∧ body.length = n

/-- The byte payload of the operation's single Write: the concatenation of
the records buffered for it. -/
def opWrite {α : Type} (f : EncFns α) (seen : List Location) (op : Op α) : Bytes :=
  ((encStep f seen op).2.map Item.payload).flatten

/-- No location record for L and no reference to L in the stream. -/
def CleanFor (L : Location) (its : List Item) : Prop :=
  ∀ i ∈ its, isLocFor L i = false ∧ refsLoc L i = false

/-- Invariant of the deduplicating run: either L is in the dedup set and
the stream satisfies LocDedup, or L is unseen and the stream is clean of
L. -/
def DedupInv (L : Location) (seen : List Location) (its : List Item) : Prop :=
  (L ∈ seen ∧ LocDedup L its) ∨ (L ∉ seen ∧ CleanFor L its)

/-! ### Console encoder (writers.go ConsoleWriter).  Buffer writes with a
computed index are modelled through Int-indexed access that yields none on
the bounds panics Go would raise. -/

/-- Console writer configuration: flag word and the three column widths
(NewConsoleWriter defaults: 20, 18, 16). -/
structure ConsoleCfg where
  flags : Nat
  shortfile : Nat
  funcname : Nat
  idWidth : Nat

/-- Flag constants of the package const block. -/
def Ldate : Nat := 1

/-- Ltime flag. -/
def Ltime : Nat := 2

/-- Lmilliseconds flag. -/
def Lmilliseconds : Nat := 4

/-- Lmicroseconds flag. -/
def Lmicroseconds : Nat := 8

/-- Lshortfile flag. -/
def Lshortfile : Nat := 16

/-- Llongfile flag. -/
def Llongfile : Nat := 32

/-- Ltypefunc flag. -/
def Ltypefunc : Nat := 64

/-- Lfuncname flag. -/
def Lfuncname : Nat := 128

/-- LUTC flag. -/
def LUTC : Nat := 256

/-- Lspans flag. -/
def Lspans : Nat := 512

/-- Lmessagespan flag. -/
def Lmessagespan : Nat := 1024

/-- The default console configuration built by NewConsoleWriter. -/
def defaultCfg (flags : Nat) : ConsoleCfg :=
  { flags := flags, shortfile := 20, funcname := 18, idWidth := 16 }

/-- Go assignment b[i] = v with Int index; none is the bounds panic. -/
def setAt (b : Bytes) (i : Int) (v : Nat) : Option Bytes :=
  if 0 ≤ i ∧ i < b.length then some (b.set i.toNat v) else none

/-- Go read s[i] with Int index; none is the bounds panic. -/
def getAt (b : Bytes) (i : Int) : Option Nat :=
  if 0 ≤ i ∧ i < b.length then some (b.getD i.toNat 0) else none

/-- The spaces global holds 144 blanks; slicing spaces[:w] panics past
that. -/
def spacesTake (w : Nat) : Option Bytes :=
  if w ≤ 144 then some (List.replicate w 32) else none

/-- Digit character: byte(d) + the zero character, with Go byte
wrapping. -/
def dchar (d : Nat) : Nat :=
  (d % 256 + 48) % 256

/-- Number of decimal digits of q, structurally recursive on a fuel
bound so that the kernel evaluates it. -/
def digitCountF : Nat → Nat → Nat
  | 0, _ => 0
  | fuel + 1, q => if q = 0 then 0 else digitCountF fuel (q / 10) + 1

/-- Number of decimal digits, the count of iterations of the source loops
for q := line; q != 0; q /= 10. -/
def digitCount (q : Nat) : Nat :=
  digitCountF (q + 1) q

/-- The line-number digit loop shared by both file-column branches: for j
from n-1 down to 1 write the next low digit of q at b[i+j]. -/
def writeLineDigits (b : Bytes) (i : Int) (q : Nat) : Nat → Option Bytes
  | 0 => some b
  | j + 1 =>
    match setAt b (i + (j + 1)) (dchar (q % 10)) with
    | some b2 => writeLineDigits b2 i (q / 10) j
    | none => none

/-- Trailing byte c stripped, for filepath.Base. -/
def dropTrailingByte (c : Nat) (s : Bytes) : Bytes :=
  (s.reverse.dropWhile (fun x => x == c)).reverse

/-- filepath.Base on a unix path: empty gives dot, all-separators gives a
slash, else everything after the last slash once trailing slashes are
removed. -/
def pathBase (s : Bytes) : Bytes :=
  if s = [] then [46]
  else
    let t := dropTrailingByte 47 s
    if t = [] then [47]
    else (t.reverse.takeWhile (fun x => x != 47)).reverse

/-- strings.Index: first offset where pat starts in s, -1 when absent. -/
def goIndexSub (s pat : Bytes) : Int :=
  match (List.range (s.length + 1)).find? (fun i => pat.isPrefixOf (s.drop i)) with
  | some i => (i : Int)
  | none => -1

/-- The shortfile column (writers.go lines 219-244): the file basename is
laid over a spaces-filled column of the configured width, the colon and
the right-aligned line number overwrite the tail when basename and digits
exceed the width. -/
def shortfileBlock (wid : Nat) (b : Bytes) (file0 : Bytes) (line : Nat) :
    Option Bytes :=
  let file := pathBase file0
  let n := 1 + digitCount line
  match spacesTake wid with
  | none => none
  | some sp =>
    let col := (file ++ sp).take wid
    let ipos : Int := if wid < file.length + n
      then (b.length : Int) + wid - n
      else (b.length : Int) + file.length
    match setAt (b ++ col) ipos 58 with
    | some b2 => writeLineDigits b2 ipos line (n - 1)
    | none => none

/-- The longfile column (writers.go lines 246-260): the full path, a colon
and eleven blanks, the digits overwriting blanks after the colon. -/
def longfileBlock (b : Bytes) (file : Bytes) (line : Nat) : Option Bytes :=
  let b2 := b ++ file
  let i : Int := b2.length
  writeLineDigits (b2 ++ 58 :: List.replicate 11 32) i line (1 + digitCount line - 1)

/-- The trailing-digit rescue loop of the Lfuncname column (writers.go
lines 286-294): walk j upward while fname[l-j] is a digit, copying it to
b[len(b)-j]; an all-digit tail longer than the written buffer or the whole
name runs past either slice bound, a panic. -/
def digitSuffixLoop (fname : Bytes) (b : Bytes) (j : Nat) : Nat → Option Bytes
  | 0 => none
  | fuel + 1 =>
    match getAt fname ((fname.length : Int) - j) with
    | none => none
    | some q =>
      if q < 48 ∨ 57 < q then some b
      else
        match setAt b ((b.length : Int) - j) q with
        | some b2 => digitSuffixLoop fname b2 (j + 1) fuel
        | none => none

/-- Date column bytes (writers.go lines 142-158). -/
def dateBytes (Y M D : Nat) : Bytes :=
  [dchar (Y / 1000 % 10), dchar (Y / 100 % 10), dchar (Y / 10 % 10), dchar (Y % 10),
    47, dchar (M / 10), dchar (M % 10), 47, dchar (D / 10), dchar (D % 10)]

/-- Time column bytes (writers.go lines 159-178). -/
def timeColBytes (h mi s : Nat) : Bytes :=
  [dchar (h / 10), dchar (h % 10), 58, dchar (mi / 10), dchar (mi % 10), 58,
    dchar (s / 10), dchar (s % 10)]

/-- Fractional-seconds column bytes (writers.go lines 179-212). -/
def fracBytes (cfg : ConsoleCfg) (ns0 : Nat) : Bytes :=
  let ns := ns0 / 1000
  if cfg.flags &&& Lmilliseconds ≠ 0 then
    let ms := ns / 1000
    [dchar (ms / 100 % 10), dchar (ms / 10 % 10), dchar (ms % 10)]
  else
    [dchar (ns / 100000 % 10), dchar (ns / 10000 % 10), dchar (ns / 1000 % 10),
      dchar (ns / 100 % 10), dchar (ns / 10 % 10), dchar (ns % 10)]

/-- The date/time part of buildHeader (writers.go lines 132-215): date,
an underscore and the clock when both appear, a dot and the fraction when
it follows either, then the two-space separator. -/
def timeHeaderPart {α : Type} (cfg : ConsoleCfg) (c : Ctx α) (ts : Int) : Bytes :=
  if cfg.flags &&& (Ldate ||| Ltime ||| Lmilliseconds ||| Lmicroseconds) = 0 then []
  else
    let r := c.split (cfg.flags &&& LUTC ≠ 0) ts
    let bd := if cfg.flags &&& Ldate ≠ 0 then dateBytes r.1 r.2.1 r.2.2.1 else []
    let bt := if cfg.flags &&& Ltime ≠ 0 then
        (if bd ≠ [] then [95] else []) ++ timeColBytes r.2.2.2.1 r.2.2.2.2.1 r.2.2.2.2.2
      else []
    let bf := if cfg.flags &&& (Lmilliseconds ||| Lmicroseconds) ≠ 0 then
        (if bd ++ bt ≠ [] then [46] else []) ++ fracBytes cfg (c.nsec ts)
      else []
    bd ++ bt ++ bf ++ [32, 32]

/-- The file part of buildHeader (writers.go lines 216-263). -/
def fileHeaderPart {α : Type} (cfg : ConsoleCfg) (c : Ctx α) (loc : Location)
    (b : Bytes) : Option Bytes :=
  if cfg.flags &&& (Llongfile ||| Lshortfile) = 0 then some b
  else
    match (if cfg.flags &&& Lshortfile ≠ 0
      then shortfileBlock cfg.shortfile b (c.nfl loc).2.1 (c.nfl loc).2.2
      else longfileBlock b (c.nfl loc).2.1 (c.nfl loc).2.2) with
    | some b2 => some (b2 ++ [32, 32])
    | none => none

/-- Is this byte a decimal digit (the loop condition of the Lfuncname
digit-suffix rescue, negated). -/
def isDigitByte (c : Nat) : Bool :=
  !decide (c < 48 ∨ 57 < c)

/-- Length of the trailing run of decimal digits. -/
def trailingDigits (s : Bytes) : Nat :=
  (s.reverse.takeWhile isDigitByte).length

/-- The package/type trimming applied to the resolved function name by
the Lfuncname branch (writers.go lines 268-277): basename, then the part
after the parenthesis-dot pair, or after the first dot. -/
def funcTrim (fname0 : Bytes) : Bytes :=
  let fname := pathBase fname0
  let p := goIndexSub fname [41, 46]
  if p = -1 then fname.drop ((goIndexSub fname [46] + 1).toNat)
  else fname.drop (p + 2).toNat

/-- The function-name part of buildHeader (writers.go lines 264-301). -/
def funcHeaderPart {α : Type} (cfg : ConsoleCfg) (c : Ctx α) (loc : Location)
    (b : Bytes) : Option Bytes :=
  if cfg.flags &&& (Ltypefunc ||| Lfuncname) = 0 then some b
  else
    let fname := pathBase (c.nfl loc).1
    if cfg.flags &&& Lfuncname ≠ 0 then
      let fname2 := funcTrim (c.nfl loc).1
      if fname2.length ≤ cfg.funcname then
        match spacesTake cfg.funcname with
        | some sp => some (b ++ (fname2 ++ sp).take cfg.funcname ++ [32, 32])
        | none => none
      else
        match digitSuffixLoop fname2 (b ++ fname2.take cfg.funcname) 1
            (fname2.length + 2) with
        | some b2 => some (b2 ++ [32, 32])
        | none => none
    else some (b ++ fname ++ [32, 32])

/-- Embedding of ConsoleWriter.buildHeader (writers.go lines 125-304);
none is an index-out-of-range panic in the source. -/
def buildHeader {α : Type} (cfg : ConsoleCfg) (c : Ctx α) (loc : Location)
    (ts : Int) : Option Bytes :=
  match fileHeaderPart cfg c loc (timeHeaderPart cfg c ts) with
  | none => none
  | some b => funcHeaderPart cfg c loc b

/-- bufWriter.NewLine (writers.go lines 1149-1154): append a newline
unless the buffer already ends with one. -/
def newLine (b : Bytes) : Bytes :=
  if b.getLast? = some 10 then b else b ++ [10]

/-- Embedding of ConsoleWriter.Message (writers.go lines 307-329); the
result is the list of sink writes the call performs, none a panic. -/
def consoleMessage {α : Type} (cfg : ConsoleCfg) (c : Ctx α) (m : Msg α)
    (sid : SpanID) : Option (List Bytes) :=
  match buildHeader cfg c m.loc m.time with
  | none => none
  | some b0 =>
    match (if cfg.flags &&& Lmessagespan ≠ 0 then
        (if cfg.idWidth ≤ 32 then some (b0 ++ idV cfg.idWidth sid ++ [32, 32])
         else none)
      else some b0) with
    | none => none
    | some b1 =>
      some [newLine (b1 ++ (match m.args with
        | some a => c.pf m.format a
        | none => m.format))]

/-- ConsoleWriter.spanHeader (writers.go lines 331-339). -/
def consoleSpanHeader {α : Type} (cfg : ConsoleCfg) (c : Ctx α) (sid : SpanID)
    (loc : Location) (tm : Int) : Option Bytes :=
  match buildHeader cfg c loc tm with
  | none => none
  | some b =>
    if cfg.idWidth ≤ 32 then some (b ++ idV cfg.idWidth sid ++ [32, 32]) else none

/-- Embedding of ConsoleWriter.SpanStarted (writers.go lines 342-364):
dropped entirely without the Lspans flag. -/
def consoleSpanStarted {α : Type} (cfg : ConsoleCfg) (c : Ctx α) (sid par : SpanID)
    (st : Int) (loc : Location) : Option (List Bytes) :=
  if cfg.flags &&& Lspans = 0 then some []
  else
    match consoleSpanHeader cfg c sid loc st with
    | none => none
    | some b =>
      if par = zeroID then some [b ++ strBytes "Span started\n"]
      else if cfg.idWidth ≤ 32 then
        some [b ++ strBytes "Span spawned from " ++ idV cfg.idWidth par ++ [10]]
      else none

/-- Embedding of ConsoleWriter.SpanFinished (writers.go lines 367-384). -/
def consoleSpanFinished {α : Type} (cfg : ConsoleCfg) (c : Ctx α) (sid : SpanID)
    (el : Int) : Option (List Bytes) :=
  if cfg.flags &&& Lspans = 0 then some []
  else
    match consoleSpanHeader cfg c sid 0 c.nowNs with
    | none => none
    | some b =>
      some [b ++ strBytes "Span finished - elapsed " ++ c.fmtElapsedMs el
        ++ strBytes "ms\n"]

/-- Embedding of ConsoleWriter.Labels (writers.go lines 387-399): a
Message with the caller location, the wall clock and a synthesized printf
call. -/
def consoleLabels {α : Type} (cfg : ConsoleCfg) (c : Ctx α) (ls : List Bytes)
    (sid : SpanID) : Option (List Bytes) :=
  consoleMessage cfg c
    { loc := c.caller, time := c.nowNs, format := strBytes "Labels: %q",
      args := some [c.labelsArg ls] } sid

/-- Embedding of ConsoleWriter.Metric (writers.go lines 401-413). -/
def consoleMetric {α : Type} (cfg : ConsoleCfg) (c : Ctx α) (mt : GoMetric)
    (sid : SpanID) : Option (List Bytes) :=
  consoleMessage cfg c
    { loc := c.caller, time := c.nowNs, format := strBytes "%v %15.5f %v",
      args := some (c.metricArgs mt.name mt.value mt.labels) } sid


theorem varintRef_low {v : Nat} (h : v < 128) : varintRef v = [v] := by
  rw [varintRef, if_pos h]

theorem varintRef_high {v : Nat} (h : 128 ≤ v) :
    varintRef v = (v % 128 + 128) :: varintRef (v / 128) := by
  rw [varintRef, if_neg (by omega)]

set_option maxRecDepth 4000 in
theorem or128_mod_eq (x : Nat) : (x ||| 128) % 256 = x % 128 + 128 := by
  have hmod : (x ||| 128) % 256 = ((x % 256) ||| 128) % 256 := by
    show (x ||| 128) % 2 ^ 8 = ((x % 2 ^ 8) ||| 128) % 2 ^ 8
    apply Nat.eq_of_testBit_eq
    intro i
    simp only [Nat.testBit_mod_two_pow, Nat.testBit_lor]
    by_cases h : i < 8 <;> simp [h]
  have hsmall : ∀ r : Fin 256, ((r : Nat) ||| 128) % 256 = (r : Nat) % 128 + 128 := by
    decide
  have hx : x % 256 < 256 := Nat.mod_lt _ (by norm_num)
  have hs := hsmall ⟨x % 256, hx⟩
  simp only at hs
  rw [hmod, hs, Nat.mod_mod_of_dvd x (by norm_num)]

theorem varintDecode_ref (v : Nat) (r : Bytes) :
    varintDecode (varintRef v ++ r) = some (v, r) := by
  induction v using Nat.strong_induction_on generalizing r with
  | _ v ih =>
    by_cases h : v < 128
    · rw [varintRef_low h]
      simp [varintDecode, h]
    · rw [varintRef_high (by omega), List.cons_append, varintDecode]
      rw [if_neg (by omega)]
      have hrec := ih (v / 128) (Nat.div_lt_self (by omega) (by omega)) r
      simp only [List.append_eq] at hrec ⊢
      rw [hrec]
      have h1 : (v % 128 + 128) % 128 = v % 128 := by omega
      have h2 : v % 128 + 128 * (v / 128) = v := by omega
      simp [h1, h2]

theorem appendVarint_append (b : Bytes) (v : Nat) :
    appendVarint b v = b ++ appendVarint [] v := by
  by_cases h1 : v < 128
  · simp [appendVarint, h1]
  by_cases h2 : v < 16384
  · simp [appendVarint, h1, h2]
  by_cases h3 : v < 2097152
  · simp [appendVarint, h1, h2, h3]
  by_cases h4 : v < 268435456
  · simp [appendVarint, h1, h2, h3, h4]
  by_cases h5 : v < 34359738368
  · simp [appendVarint, h1, h2, h3, h4, h5]
  by_cases h6 : v < 4398046511104
  · simp [appendVarint, h1, h2, h3, h4, h5, h6]
  by_cases h7 : v < 562949953421312
  · simp [appendVarint, h1, h2, h3, h4, h5, h6, h7]
  by_cases h8 : v < 72057594037927936
  · simp [appendVarint, h1, h2, h3, h4, h5, h6, h7, h8]
  by_cases h9 : v < 9223372036854775808
  · simp [appendVarint, h1, h2, h3, h4, h5, h6, h7, h8, h9]
  · simp [appendVarint, h1, h2, h3, h4, h5, h6, h7, h8, h9]

theorem appendVarint_length (v : Nat) :
    (appendVarint [] v).length = varintSize v := by
  by_cases h1 : v < 128
  · simp [appendVarint, varintSize, h1]
  by_cases h2 : v < 16384
  · simp [appendVarint, varintSize, h1, h2]
  by_cases h3 : v < 2097152
  · simp [appendVarint, varintSize, h1, h2, h3]
  by_cases h4 : v < 268435456
  · simp [appendVarint, varintSize, h1, h2, h3, h4]
  by_cases h5 : v < 34359738368
  · simp [appendVarint, varintSize, h1, h2, h3, h4, h5]
  by_cases h6 : v < 4398046511104
  · simp [appendVarint, varintSize, h1, h2, h3, h4, h5, h6]
  by_cases h7 : v < 562949953421312
  · simp [appendVarint, varintSize, h1, h2, h3, h4, h5, h6, h7]
  by_cases h8 : v < 72057594037927936
  · simp [appendVarint, varintSize, h1, h2, h3, h4, h5, h6, h7, h8]
  by_cases h9 : v < 9223372036854775808
  · simp [appendVarint, varintSize, h1, h2, h3, h4, h5, h6, h7, h8, h9]
  · simp [appendVarint, varintSize, h1, h2, h3, h4, h5, h6, h7, h8, h9]

theorem varintSize_le_ten (v : Nat) : varintSize v ≤ 10 := by
  unfold varintSize
  split_ifs <;> omega

theorem appendVarint_eq_ref {v : Nat} (h : v < 2 ^ 64) :
    appendVarint [] v = varintRef v := by
  by_cases h1 : v < 128
  · simp [appendVarint, h1]
    rw [varintRef_low h1]
    simp only [Nat.shiftRight_eq_div_pow, or128_mod_eq, List.cons.injEq, and_true]
    norm_num
    omega
  by_cases h2 : v < 16384
  · simp [appendVarint, h1, h2]
    rw [varintRef_high (by omega), varintRef_low (by omega : v / 128 < 128)]
    simp only [Nat.shiftRight_eq_div_pow, or128_mod_eq, List.cons.injEq, and_true]
    norm_num
    omega
  by_cases h3 : v < 2097152
  · simp [appendVarint, h1, h2, h3]
    rw [varintRef_high (by omega), varintRef_high (by omega : 128 ≤ v / 128), varintRef_low (by omega : v / 128 / 128 < 128)]
    simp only [Nat.shiftRight_eq_div_pow, or128_mod_eq, List.cons.injEq, and_true]
    norm_num
    omega
  by_cases h4 : v < 268435456
  · simp [appendVarint, h1, h2, h3, h4]
    rw [varintRef_high (by omega), varintRef_high (by omega : 128 ≤ v / 128), varintRef_high (by omega : 128 ≤ v / 128 / 128), varintRef_low (by omega : v / 128 / 128 / 128 < 128)]
    simp only [Nat.shiftRight_eq_div_pow, or128_mod_eq, List.cons.injEq, and_true]
    norm_num
    omega
  by_cases h5 : v < 34359738368
  · simp [appendVarint, h1, h2, h3, h4, h5]
    rw [varintRef_high (by omega), varintRef_high (by omega : 128 ≤ v / 128), varintRef_high (by omega : 128 ≤ v / 128 / 128), varintRef_high (by omega : 128 ≤ v / 128 / 128 / 128), varintRef_low (by omega : v / 128 / 128 / 128 / 128 < 128)]
    simp only [Nat.shiftRight_eq_div_pow, or128_mod_eq, List.cons.injEq, and_true]
    norm_num
    omega
  by_cases h6 : v < 4398046511104
  · simp [appendVarint, h1, h2, h3, h4, h5, h6]
    rw [varintRef_high (by omega), varintRef_high (by omega : 128 ≤ v / 128), varintRef_high (by omega : 128 ≤ v / 128 / 128), varintRef_high (by omega : 128 ≤ v / 128 / 128 / 128), varintRef_high (by omega : 128 ≤ v / 128 / 128 / 128 / 128), varintRef_low (by omega : v / 128 / 128 / 128 / 128 / 128 < 128)]
    simp only [Nat.shiftRight_eq_div_pow, or128_mod_eq, List.cons.injEq, and_true]
    norm_num
    omega
  by_cases h7 : v < 562949953421312
  · simp [appendVarint, h1, h2, h3, h4, h5, h6, h7]
    rw [varintRef_high (by omega), varintRef_high (by omega : 128 ≤ v / 128), varintRef_high (by omega : 128 ≤ v / 128 / 128), varintRef_high (by omega : 128 ≤ v / 128 / 128 / 128), varintRef_high (by omega : 128 ≤ v / 128 / 128 / 128 / 128), varintRef_high (by omega : 128 ≤ v / 128 / 128 / 128 / 128 / 128), varintRef_low (by omega : v / 128 / 128 / 128 / 128 / 128 / 128 < 128)]
    simp only [Nat.shiftRight_eq_div_pow, or128_mod_eq, List.cons.injEq, and_true]
    norm_num
    omega
  by_cases h8 : v < 72057594037927936
  · simp [appendVarint, h1, h2, h3, h4, h5, h6, h7, h8]
    rw [varintRef_high (by omega), varintRef_high (by omega : 128 ≤ v / 128), varintRef_high (by omega : 128 ≤ v / 128 / 128), varintRef_high (by omega : 128 ≤ v / 128 / 128 / 128), varintRef_high (by omega : 128 ≤ v / 128 / 128 / 128 / 128), varintRef_high (by omega : 128 ≤ v / 128 / 128 / 128 / 128 / 128), varintRef_high (by omega : 128 ≤ v / 128 / 128 / 128 / 128 / 128 / 128), varintRef_low (by omega : v / 128 / 128 / 128 / 128 / 128 / 128 / 128 < 128)]
    simp only [Nat.shiftRight_eq_div_pow, or128_mod_eq, List.cons.injEq, and_true]
    norm_num
    omega
  by_cases h9 : v < 9223372036854775808
  · simp [appendVarint, h1, h2, h3, h4, h5, h6, h7, h8, h9]
    rw [varintRef_high (by omega), varintRef_high (by omega : 128 ≤ v / 128), varintRef_high (by omega : 128 ≤ v / 128 / 128), varintRef_high (by omega : 128 ≤ v / 128 / 128 / 128), varintRef_high (by omega : 128 ≤ v / 128 / 128 / 128 / 128), varintRef_high (by omega : 128 ≤ v / 128 / 128 / 128 / 128 / 128), varintRef_high (by omega : 128 ≤ v / 128 / 128 / 128 / 128 / 128 / 128), varintRef_high (by omega : 128 ≤ v / 128 / 128 / 128 / 128 / 128 / 128 / 128), varintRef_low (by omega : v / 128 / 128 / 128 / 128 / 128 / 128 / 128 / 128 < 128)]
    simp only [Nat.shiftRight_eq_div_pow, or128_mod_eq, List.cons.injEq, and_true]
    norm_num
    omega
  · simp [appendVarint, h1, h2, h3, h4, h5, h6, h7, h8, h9]
    rw [varintRef_high (by omega), varintRef_high (by omega : 128 ≤ v / 128), varintRef_high (by omega : 128 ≤ v / 128 / 128), varintRef_high (by omega : 128 ≤ v / 128 / 128 / 128), varintRef_high (by omega : 128 ≤ v / 128 / 128 / 128 / 128), varintRef_high (by omega : 128 ≤ v / 128 / 128 / 128 / 128 / 128), varintRef_high (by omega : 128 ≤ v / 128 / 128 / 128 / 128 / 128 / 128), varintRef_high (by omega : 128 ≤ v / 128 / 128 / 128 / 128 / 128 / 128 / 128), varintRef_high (by omega : 128 ≤ v / 128 / 128 / 128 / 128 / 128 / 128 / 128 / 128), varintRef_low (by omega : v / 128 / 128 / 128 / 128 / 128 / 128 / 128 / 128 / 128 < 128)]
    simp only [Nat.shiftRight_eq_div_pow, or128_mod_eq, List.cons.injEq, and_true]
    norm_num
    omega

theorem varintDecode_appendVarint {v : Nat} (h : v < 2 ^ 64) (r : Bytes) :
    varintDecode (appendVarint [] v ++ r) = some (v, r) := by
  rw [appendVarint_eq_ref h, varintDecode_ref]

theorem getMatch_setMatch {k l : Label} (h : GetMatch k l) : SetMatch k l := by
  rcases h with h | h
  · exact Or.inr (Or.inl h)
  · exact Or.inr (Or.inr h)

theorem labelsGet_of_no_match {ls : Labels} {k : Label}
    (h : ∀ l ∈ ls, ¬ GetMatch k l) : labelsGet ls k = ([], false) := by
  induction ls with
  | nil => rfl
  | cons l rest ih =>
    have hl := h l (by simp)
    rw [labelsGet]
    rw [if_neg (fun he => hl (Or.inl he))]
    rw [if_neg (fun he => hl (Or.inr he))]
    exact ih (fun x hx => h x (by simp [hx]))

theorem labelsGet_val (k v : Label) (rest : Labels) :
    labelsGet (labelVal k v :: rest) k = (v, true) := by
  by_cases hv : v = []
  · subst hv
    simp [labelVal, labelsGet]
  · have hne : labelVal k v ≠ k := by
      simp only [labelVal, if_neg hv]
      intro he
      have hlen := congrArg List.length he
      simp at hlen
    have hpre : (k ++ ['=']).isPrefixOf (labelVal k v) = true := by
      simp only [labelVal, if_neg hv]
      rw [List.isPrefixOf_iff_prefix]
      exact ⟨v, by simp⟩
    rw [labelsGet, if_neg hne, if_pos hpre]
    simp only [labelVal, if_neg hv, Prod.mk.injEq, and_true]
    rw [show k.length + 1 = (k ++ ['=']).length by simp]
    rw [show k ++ '=' :: v = (k ++ ['=']) ++ v by simp]
    simp

theorem labelsGet_labelsSet (ls : Labels) (k v : Label) :
    labelsGet (labelsSet ls k v) k = (v, true) := by
  unfold labelsSet
  induction ls with
  | nil => exact labelsGet_val k v []
  | cons l rest ih =>
    rw [labelsSetGo]
    by_cases h1 : l = '=' :: k
    · rw [if_pos h1]; exact labelsGet_val k v rest
    rw [if_neg h1]
    by_cases h2 : l = k ∨ (k ++ ['=']).isPrefixOf l = true
    · rw [if_pos h2]; exact labelsGet_val k v rest
    · rw [if_neg h2]
      rw [labelsGet]
      rw [if_neg (fun he => h2 (Or.inl he))]
      rw [if_neg (fun he => h2 (Or.inr he))]
      exact ih

theorem labelsDel_of_no_match {ls : Labels} {k : Label}
    (h : ∀ l ∈ ls, ¬ SetMatch k l) : labelsDel ls k = ls := by
  induction ls with
  | nil => rfl
  | cons l rest ih =>
    have hl := h l (by simp)
    rw [labelsDel]
    rw [if_neg (fun he => hl (Or.inl he))]
    rw [if_neg (fun he => hl (Or.inr he))]
    rw [ih (fun x hx => h x (by simp [hx]))]

theorem labelsDel_found {p q : Labels} {k e : Label}
    (hp : ∀ l ∈ p, ¬ SetMatch k l) (hq : ∀ l ∈ q, ¬ SetMatch k l)
    (he : SetMatch k e) :
    labelsDel (p ++ e :: q) k = p ++ ('=' :: k) :: q := by
  induction p with
  | nil =>
    simp only [List.nil_append]
    by_cases h1 : e = '=' :: k
    · rw [labelsDel, if_pos h1, h1]
    · have h2 : e = k ∨ (k ++ ['=']).isPrefixOf e = true := by
        rcases he with he | he | he
        · exact absurd he h1
        · exact Or.inl he
        · exact Or.inr he
      rw [labelsDel, if_neg h1, if_pos h2, labelsDel_of_no_match hq]
  | cons l rest ih =>
    have hl := hp l (by simp)
    rw [List.cons_append, labelsDel]
    rw [if_neg (fun hc => hl (Or.inl hc))]
    rw [if_neg (fun hc => hl (Or.inr hc))]
    rw [ih (fun x hx => hp x (by simp [hx]))]
    rfl

theorem labelsSetGo_found {p q : Labels} {k e val : Label}
    (hp : ∀ l ∈ p, ¬ SetMatch k l) (he : SetMatch k e) :
    labelsSetGo val k (p ++ e :: q) = p ++ val :: q := by
  induction p with
  | nil =>
    simp only [List.nil_append]
    by_cases h1 : e = '=' :: k
    · rw [labelsSetGo, if_pos h1]
    · have h2 : e = k ∨ (k ++ ['=']).isPrefixOf e = true := by
        rcases he with he | he | he
        · exact absurd he h1
        · exact Or.inl he
        · exact Or.inr he
      rw [labelsSetGo, if_neg h1, if_pos h2]
  | cons l rest ih =>
    have hl := hp l (by simp)
    rw [List.cons_append, labelsSetGo]
    rw [if_neg (fun hc => hl (Or.inl hc))]
    rw [if_neg (fun hc => hl (Or.inr hc))]
    rw [ih (fun x hx => hp x (by simp [hx]))]
    rfl

theorem append_eq_cons_all_eq :
    ∀ k : Label, k ++ ['='] = '=' :: k → ∀ c ∈ k, c = '='
  | [], _, c, hc => absurd hc (by simp)
  | a :: k2, h, c, hc => by
    simp only [List.cons_append, List.cons.injEq] at h
    obtain ⟨ha, h2⟩ := h
    subst ha
    rcases List.mem_cons.mp hc with hc | hc
    · exact hc
    · exact append_eq_cons_all_eq k2 h2 c hc

theorem tombstone_not_getMatch {k : Label} {c0 : Char} (hc0 : c0 ∈ k)
    (hne : c0 ≠ '=') : ¬ GetMatch k ('=' :: k) := by
  rintro (h | h)
  · have hlen := congrArg List.length h
    simp at hlen
  · rw [List.isPrefixOf_iff_prefix] at h
    have hlen : (k ++ ['=']).length = ('=' :: k).length := by simp
    have heq := h.eq_of_length hlen
    exact hne (append_eq_cons_all_eq k heq c0 hc0)

/-- C3: for every unsigned 64-bit value v, appendVarint appends after b
exactly varintSize v bytes, at most ten, following the standard protobuf
7-bit continuation scheme: the standard varint decoder recovers v together
with the rest of the stream. -/
theorem claim3_varint_roundtrip (v : Nat) (h : v < 2 ^ 64) (b r : Bytes) :
    appendVarint b v = b ++ appendVarint [] v ∧
    (appendVarint [] v).length = varintSize v ∧
    varintSize v ≤ 10 ∧
    varintDecode (appendVarint [] v ++ r) = some (v, r) :=
  ⟨appendVarint_append b v, appendVarint_length v, varintSize_le_ten v,
    varintDecode_appendVarint h r⟩

theorem claim3_varint_roundtrip_witness :
    (2 ^ 63 : Nat) < 2 ^ 64 ∧
    (appendVarint [7] (2 ^ 63) = [7] ++ appendVarint [] (2 ^ 63) ∧
      (appendVarint [] (2 ^ 63)).length = varintSize (2 ^ 63) ∧
      varintSize (2 ^ 63) ≤ 10 ∧
      varintDecode (appendVarint [] (2 ^ 63) ++ [9]) = some (2 ^ 63, [9])) :=
  ⟨by decide, claim3_varint_roundtrip (2 ^ 63) (by decide) [7] [9]⟩

/-- C5: Labels.Merge of a list containing the bare key k panics in the
source (strings.SplitN returns one element and kv[1] indexes out of
range), modelled as none, while the Set/Del iteration the claim describes
yields the singleton list [k]; on separator-carrying entries (tombstones
and key=value) Merge does follow the Del/Set iteration, as the last
conjunct illustrates. -/
theorem claim5_merge_bare_key_panics :
    labelsMerge [] [['k']] = none ∧
    labelsSet [] ['k'] [] = [['k']] ∧
    labelsMerge [['a']] [['=', 'a'], ['b', '=', '2']] =
      some [['=', 'a'], ['b', '=', '2']] ∧
    labelsSet (labelsDel [['a']] ['a']) ['b'] ['2'] =
      [['=', 'a'], ['b', '=', '2']] := by
  decide

/-- C6 counterexample: with the empty key the claim fails on the code.
Starting from the empty list, Set "" "x" then Del "" leaves the entry "="
which Get "" still matches as a key=value prefix, so Get returns found
instead of the claimed ("", false). -/
theorem claim6_counterexample :
    labelsGet (labelsDel (labelsSet [] [] ['x']) []) [] ≠ ([], false) := by
  decide

/-- C6 (amended): for a key containing some character other than = and a
label list holding at most one entry for that key, after Set(k,v) Get k
returns (v, true) (this conjunct needs no hypothesis at all); after Del k
on a list without an entry for k, and on a list with exactly one entry for
k, Get k returns ("", false), the deleted entry becoming the in-place
tombstone =k; and Set(k,w) after Del k overwrites that tombstone in place,
so the key reappears at its original position with all other entries
untouched. -/
theorem claim6_labels_set_get_del (k v w e : Label) (ls0 ls p q : Labels)
    (hk : ∃ c ∈ k, c ≠ '=')
    (hls : ∀ l ∈ ls, ¬ SetMatch k l)
    (hp : ∀ l ∈ p, ¬ SetMatch k l)
    (hq : ∀ l ∈ q, ¬ SetMatch k l)
    (he : SetMatch k e) :
    labelsGet (labelsSet ls0 k v) k = (v, true) ∧
    labelsGet (labelsDel ls k) k = ([], false) ∧
    labelsDel (p ++ e :: q) k = p ++ ('=' :: k) :: q ∧
    labelsGet (labelsDel (p ++ e :: q) k) k = ([], false) ∧
    labelsSet (labelsDel (p ++ e :: q) k) k w = p ++ labelVal k w :: q := by
  obtain ⟨c0, hc0, hcne⟩ := hk
  refine ⟨labelsGet_labelsSet ls0 k v, ?_, labelsDel_found hp hq he, ?_, ?_⟩
  · rw [labelsDel_of_no_match hls]
    exact labelsGet_of_no_match (fun l hl hg => hls l hl (getMatch_setMatch hg))
  · rw [labelsDel_found hp hq he]
    apply labelsGet_of_no_match
    intro l hl
    rcases List.mem_append.mp hl with hl | hl
    · exact fun hg => hp l hl (getMatch_setMatch hg)
    · rcases List.mem_cons.mp hl with rfl | hl
      · exact tombstone_not_getMatch hc0 hcne
      · exact fun hg => hq l hl (getMatch_setMatch hg)
  · rw [labelsDel_found hp hq he]
    exact labelsSetGo_found hp (Or.inl rfl)

theorem claim6_labels_set_get_del_witness :
    (∃ c ∈ ['a'], c ≠ '=') ∧
    (∀ l ∈ [['b', '=', '2']], ¬ SetMatch ['a'] l) ∧
    (∀ l ∈ [['x']], ¬ SetMatch ['a'] l) ∧
    (∀ l ∈ [['b']], ¬ SetMatch ['a'] l) ∧
    SetMatch ['a'] ['a', '=', '1'] ∧
    (labelsGet (labelsSet [['b']] ['a'] ['1']) ['a'] = (['1'], true) ∧
      labelsGet (labelsDel [['b', '=', '2']] ['a']) ['a'] = ([], false) ∧
      labelsDel ([['x']] ++ ['a', '=', '1'] :: [['b']]) ['a'] =
        [['x']] ++ ('=' :: ['a']) :: [['b']] ∧
      labelsGet (labelsDel ([['x']] ++ ['a', '=', '1'] :: [['b']]) ['a']) ['a'] =
        ([], false) ∧
      labelsSet (labelsDel ([['x']] ++ ['a', '=', '1'] :: [['b']]) ['a']) ['a'] ['2'] =
        [['x']] ++ labelVal ['a'] ['2'] :: [['b']]) :=
  ⟨by decide, by decide, by decide, by decide, by decide,
    claim6_labels_set_get_del ['a'] ['1'] ['2'] ['a', '=', '1'] [['b']]
      [['b', '=', '2']] [['x']] [['b']]
      (by decide) (by decide) (by decide) (by decide) (by decide)⟩

/-- C9: the rotating sink rotates exactly when no file is open or the
counter plus the incoming payload exceeds MaxSize, and with MaxSize 10 the
writes hello then world! land in two files; but rotation never resets the
byte counter in the source (File.rotate touches only the file handle), so
after those two writes the counter reads 11, a third one-byte write x
rotates again into a third file, while the spec rotation semantics
(counter reset) would append x to the second file. -/
theorem claim9_rotation_counter_never_reset :
    (fileRun 10 fileInit [strBytes "hello", strBytes "world!"]).files
      = [strBytes "hello", strBytes "world!"] ∧
    (fileRun 10 fileInit [strBytes "hello", strBytes "world!"]).nbytes = 11 ∧
    (fileRun 10 fileInit [strBytes "hello", strBytes "world!", strBytes "x"]).files
      = [strBytes "hello", strBytes "world!", strBytes "x"] ∧
    (fileRunSpec 10 fileInit [strBytes "hello", strBytes "world!", strBytes "x"]).files
      = [strBytes "hello", strBytes "world!" ++ strBytes "x"] := by
  decide

/-- C8 counterexample: the claimed frame bytes are not what
ProtoWriter.SpanFinished writes for id 0x01..0x10 and elapsed 250000: the
inner message also counts the elapsed field (tag plus varint, 4 bytes), so
the inner length is 22 not 18, the outer length 24 not 20, and the varint
of 250000 is 0x90 0xA1 0x0F not 0x90 0x8D 0x0F. -/
theorem claim8_counterexample :
    protoSpanFinishedPayload (List.range' 1 16) 250000 ≠
      [0x14, 0x2A, 0x12, 0x0A, 0x10] ++ List.range' 1 16 ++ [0x10, 0x90, 0x8D, 0x0F] := by
  decide

/-- C8 (amended): for id 0x01..0x10 and elapsed 250000 the single frame
written is 0x18 0x2A 0x16 0x0A 0x10, the sixteen id bytes, then 0x10 0x90
0xA1 0x0F: outer length 24, tag 5 shl 3 or 2 with inner length 22, the id
field, then the elapsed tag 0x10 and varint 0x90 0xA1 0x0F. -/
theorem claim8_span_finish_frame :
    protoSpanFinishedPayload (List.range' 1 16) 250000 =
      [0x18, 0x2A, 0x16, 0x0A, 0x10] ++ List.range' 1 16 ++ [0x10, 0x90, 0xA1, 0x0F] := by
  decide

/-- C7 counterexample: with flags DATE, TIME and SHORTFILE, the call-site
resolving to /a/b/c/main.go line 17 and the clock decomposing to
2020-01-02 03:04:05, the message hi %d with argument 5 produces a line
whose short-file column is the bare basename main.go:17 padded to the
20-character column; the line does not begin with the claimed path-aware
c/main.go:17 form. -/
theorem claim7_counterexample :
    consoleMessage (defaultCfg (Ldate ||| Ltime ||| Lshortfile)) sampleCtx
      { loc := 5, time := 0, format := strBytes "hi %d", args := some [5] } zeroID
      = some [strBytes "2020/01/02_03:04:05  main.go:17            hi 5\n"] ∧
    (strBytes "2020/01/02_03:04:05  c/main.go:17").isPrefixOf
      (strBytes "2020/01/02_03:04:05  main.go:17            hi 5\n") = false := by
  decide

/-- C7 (amended): under the scenario of the claim the emitted line is
2020/01/02_03:04:05, two spaces, then main.go:17 followed by ten padding
blanks (the fixed 20-column short-file field built from
filepath.Base, discarding the directory part; the path-aware
appendSegments routine is defined in the source but not used by
buildHeader), two more spaces, then hi 5 and the newline. -/
theorem claim7_console_header :
    consoleMessage (defaultCfg (Ldate ||| Ltime ||| Lshortfile)) sampleCtx
      { loc := 5, time := 0, format := strBytes "hi %d", args := some [5] } zeroID
      = some [strBytes "2020/01/02_03:04:05  main.go:17            hi 5\n"] := by
  decide

/-- C10: for a message whose location token is zero, both deduplicating
encoders leave the dedup set unchanged and write no location record, and
the message record omits the location field entirely: the JSON object has
no l key and the binary frame has no field 2, as the explicit right-hand
sides show. -/
theorem claim10_zero_location {α : Type} (c : Ctx α) (seen : List Location)
    (m : Msg α) (sid : SpanID) (h : m.loc = 0) :
    encStep (jsonFns c) seen (Op.message m sid)
      = (seen, [Item.eventRec none (jsonMessagePayload c m sid)]) ∧
    encStep (protoFns c) seen (Op.message m sid)
      = (seen, [Item.eventRec none (protoMessagePayload c m sid)]) ∧
    jsonMessagePayload c m sid =
      strBytes "\x7b\"m\":\x7b"
      ++ (if sid ≠ zeroID then strBytes "\"s\":\"" ++ idHex sid ++ strBytes "\"," else [])
      ++ strBytes "\"t\":" ++ decInt m.time
      ++ strBytes ",\"m\":\""
      ++ (match m.args with
          | some a => c.pf m.format a
          | none => m.format)
      ++ strBytes "\"\x7d\x7d\n" ∧
    protoMessagePayload c m sid =
      (let text := match m.args with
        | some a => c.pf m.format a
        | none => m.format
       let l := text.length
       let sz := (if sid ≠ zeroID then 1 + varintSize sid.length + sid.length else 0)
         + (1 + 8) + (1 + varintSize l + l)
       appendVarint [] (1 + varintSize sz + sz)
       ++ appendTagVarint [] (3 <<< 3 ||| 2) sz
       ++ (if sid ≠ zeroID then appendTagVarint [] (1 <<< 3 ||| 2) sid.length ++ sid
          else [])
       ++ ((3 <<< 3 ||| 1) :: le64 (toU64 m.time))
       ++ appendTagVarint [] (4 <<< 3 ||| 2) l
       ++ text) := by
  refine ⟨?_, ?_, ?_, ?_⟩
  · by_cases hs : m.loc ∈ seen <;> simp [encStep, locEffect, jsonFns, h, hs]
  · by_cases hs : m.loc ∈ seen <;> simp [encStep, locEffect, protoFns, h, hs]
  · simp [jsonMessagePayload, h]
  · simp [protoMessagePayload, h]

theorem claim10_zero_location_witness :
    ((0 : Location) = 0) ∧
    (encStep (jsonFns sampleCtx) [7] (Op.message
        { loc := 0, time := 3, format := strBytes "x", args := none } zeroID)
      = ([7], [Item.eventRec none (jsonMessagePayload sampleCtx
          { loc := 0, time := 3, format := strBytes "x", args := none } zeroID)]) ∧
     encStep (protoFns sampleCtx) [7] (Op.message
        { loc := 0, time := 3, format := strBytes "x", args := none } zeroID)
      = ([7], [Item.eventRec none (protoMessagePayload sampleCtx
          { loc := 0, time := 3, format := strBytes "x", args := none } zeroID)]) ∧
     jsonMessagePayload sampleCtx
        { loc := 0, time := 3, format := strBytes "x", args := none } zeroID =
      strBytes "\x7b\"m\":\x7b"
      ++ (if zeroID ≠ zeroID then strBytes "\"s\":\"" ++ idHex zeroID ++ strBytes "\","
         else [])
      ++ strBytes "\"t\":" ++ decInt 3
      ++ strBytes ",\"m\":\""
      ++ strBytes "x"
      ++ strBytes "\"\x7d\x7d\n" ∧
     protoMessagePayload sampleCtx
        { loc := 0, time := 3, format := strBytes "x", args := none } zeroID =
      (let text := strBytes "x"
       let l := text.length
       let sz := (if zeroID ≠ zeroID then 1 + varintSize zeroID.length + zeroID.length
          else 0) + (1 + 8) + (1 + varintSize l + l)
       appendVarint [] (1 + varintSize sz + sz)
       ++ appendTagVarint [] (3 <<< 3 ||| 2) sz
       ++ (if zeroID ≠ zeroID then
            appendTagVarint [] (1 <<< 3 ||| 2) zeroID.length ++ zeroID else [])
       ++ ((3 <<< 3 ||| 1) :: le64 (toU64 3))
       ++ appendTagVarint [] (4 <<< 3 ||| 2) l
       ++ text)) :=
  ⟨rfl, claim10_zero_location sampleCtx [7]
    { loc := 0, time := 3, format := strBytes "x", args := none } zeroID rfl⟩

theorem locDedup_append {L : Location} {its new : List Item} (h : LocDedup L its)
    (hnew : ∀ i ∈ new, isLocFor L i = false) : LocDedup L (its ++ new) := by
  obtain ⟨pre, pay, post, heq, hpre, hpost⟩ := h
  refine ⟨pre, pay, post ++ new, by simp [heq], hpre, ?_⟩
  intro i hi
  rcases List.mem_append.mp hi with hi | hi
  · exact hpost i hi
  · exact hnew i hi

theorem cleanFor_append {L : Location} {its new : List Item} (h1 : CleanFor L its)
    (h2 : CleanFor L new) : CleanFor L (its ++ new) := by
  intro i hi
  rcases List.mem_append.mp hi with hi | hi
  · exact h1 i hi
  · exact h2 i hi

theorem encStep_inv {α : Type} (f : EncFns α) {L : Location} (hL : L ≠ 0)
    (op : Op α) {seen : List Location} {its : List Item}
    (hinv : DedupInv L seen its) :
    DedupInv L (encStep f seen op).1 (its ++ (encStep f seen op).2) := by
  have basic : ∀ p : Bytes, DedupInv L seen (its ++ [Item.eventRec none p]) := by
    intro p
    rcases hinv with ⟨hseen, hd⟩ | ⟨hseen, hc⟩
    · exact Or.inl ⟨hseen, locDedup_append hd (by intro i hi; simp at hi; subst hi; rfl)⟩
    · refine Or.inr ⟨hseen, cleanFor_append hc ?_⟩
      intro i hi
      simp at hi
      subst hi
      exact ⟨rfl, rfl⟩
  have general : ∀ (lc : Location) (evp : Bytes),
      DedupInv L
        (if lc ∈ seen then (seen, ([] : List Item)) else locEffect f seen lc).1
        (its ++
          ((if lc ∈ seen then (seen, ([] : List Item)) else locEffect f seen lc).2
            ++ [Item.eventRec (if lc = 0 then none else some lc) evp])) := by
    intro lc evp
    by_cases hmem : lc ∈ seen
    · simp only [if_pos hmem, List.nil_append]
      by_cases hlc : lc = L
      · subst hlc
        rcases hinv with ⟨hseen, hd⟩ | ⟨hseen, _⟩
        · exact Or.inl ⟨hseen, locDedup_append hd
            (by intro i hi; simp at hi; subst hi; rfl)⟩
        · exact absurd hmem hseen
      · have href : refsLoc L (Item.eventRec (if lc = 0 then none else some lc) evp)
            = false := by
          by_cases h0 : lc = 0 <;> simp [refsLoc, h0, hlc]
        rcases hinv with ⟨hseen, hd⟩ | ⟨hseen, hc⟩
        · exact Or.inl ⟨hseen, locDedup_append hd
            (by intro i hi; simp at hi; subst hi; rfl)⟩
        · refine Or.inr ⟨hseen, cleanFor_append hc ?_⟩
          intro i hi
          simp at hi
          subst hi
          exact ⟨rfl, href⟩
    · simp only [if_neg hmem]
      unfold locEffect
      by_cases h0 : lc = 0
      · simp only [if_pos h0, h0, List.nil_append]
        have := basic evp
        simpa using this
      · simp only [if_neg h0]
        by_cases hlc : lc = L
        · subst hlc
          rcases hinv with ⟨hseen, _⟩ | ⟨hseen, hc⟩
          · exact absurd hseen hmem
          · refine Or.inl ⟨by simp, ?_⟩
            refine ⟨its, f.locPayload lc, [Item.eventRec (some lc) evp], ?_, hc, ?_⟩
            · simp
            · intro i hi
              simp at hi
              subst hi
              rfl
        · have h1 : isLocFor L (Item.locRec lc (f.locPayload lc)) = false := by
            simp [isLocFor]
            exact hlc
          have h2 : refsLoc L (Item.eventRec (some lc) evp) = false := by
            simp [refsLoc]
            exact hlc
          have hm2 : (L ∈ lc :: seen) ↔ L ∈ seen := by
            simp [List.mem_cons]
            intro hL2
            exact absurd hL2.symm hlc
          rcases hinv with ⟨hseen, hd⟩ | ⟨hseen, hc⟩
          · refine Or.inl ⟨hm2.mpr hseen, locDedup_append hd ?_⟩
            intro i hi
            simp at hi
            rcases hi with rfl | rfl
            · exact h1
            · rfl
          · refine Or.inr ⟨fun hcon => hseen (hm2.mp hcon), cleanFor_append hc ?_⟩
            intro i hi
            simp at hi
            rcases hi with rfl | rfl
            · exact ⟨h1, rfl⟩
            · exact ⟨rfl, h2⟩
  cases op with
  | labels ls sid => exact basic _
  | metric mt sid => exact basic _
  | spanFinished sid el => exact basic _
  | message m sid => exact general m.loc _
  | spanStarted sid par st loc => exact general loc _

theorem encRun_inv {α : Type} (f : EncFns α) {L : Location} (hL : L ≠ 0) :
    ∀ (ops : List (Op α)) (seen : List Location) (its : List Item),
      DedupInv L seen its →
      DedupInv L (encRun f seen ops).1 (its ++ (encRun f seen ops).2) := by
  intro ops
  induction ops with
  | nil =>
    intro seen its h
    simpa [encRun] using h
  | cons op rest ih =>
    intro seen its h
    have h1 := encStep_inv f hL op h
    have h2 := ih (encStep f seen op).1 (its ++ (encStep f seen op).2) h1
    simp only [encRun]
    simpa [List.append_assoc] using h2

theorem encRun_refs {α : Type} (f : EncFns α) {L : Location} (hL : L ≠ 0) :
    ∀ (ops : List (Op α)) (seen : List Location),
      (∃ op ∈ ops, opRefs L op = true) →
      ∃ i ∈ (encRun f seen ops).2, refsLoc L i = true := by
  intro ops
  induction ops with
  | nil =>
    intro seen hop
    simp at hop
  | cons op rest ih =>
    intro seen hop
    rcases hop with ⟨op0, hmem, href⟩
    rcases List.mem_cons.mp hmem with rfl | hmem2
    · cases op0 with
      | message m sid =>
        have hlc : m.loc = L := by simpa [opRefs] using href
        refine ⟨Item.eventRec (some L) (f.msgPayload m sid), ?_, by simp [refsLoc]⟩
        simp only [encRun]
        apply List.mem_append.mpr
        left
        by_cases hmem3 : m.loc ∈ seen <;>
          simp [encStep, locEffect, hlc, hL, hmem3]
      | spanStarted sid par st loc =>
        have hlc : loc = L := by simpa [opRefs] using href
        refine ⟨Item.eventRec (some L) (f.startPayload sid par st loc), ?_,
          by simp [refsLoc]⟩
        simp only [encRun]
        apply List.mem_append.mpr
        left
        by_cases hmem3 : loc ∈ seen <;>
          simp [encStep, locEffect, hlc, hL, hmem3]
      | labels ls sid => simp [opRefs] at href
      | metric mt sid => simp [opRefs] at href
      | spanFinished sid el => simp [opRefs] at href
    · obtain ⟨i, hi, hr⟩ := ih (encStep f seen op).1 ⟨op0, hmem2, href⟩
      refine ⟨i, ?_, hr⟩
      simp only [encRun]
      exact List.mem_append.mpr (Or.inr hi)

theorem encRun_dedup {α : Type} (f : EncFns α) {L : Location} (hL : L ≠ 0)
    (ops : List (Op α)) (href : ∃ op ∈ ops, opRefs L op = true) :
    LocDedup L (encRun f [] ops).2 := by
  have hinv := encRun_inv f hL ops [] []
    (Or.inr ⟨by simp, by intro i hi; simp at hi⟩)
  rcases hinv with ⟨_, hd⟩ | ⟨_, hc⟩
  · simpa using hd
  · obtain ⟨i, hi, hr⟩ := encRun_refs f hL ops [] href
    have hcl := (hc i (by simpa using hi)).2
    rw [hr] at hcl
    exact absurd hcl (by simp)

/-- C1: for every finite operation sequence on a JSONWriter or ProtoWriter
instance and every nonzero location L referenced by some Message or
SpanStarted operation, the encoder's record stream contains exactly one
location record describing L, and it is placed before the first event
record referencing L (the LocDedup decomposition: a unique location record
whose prefix holds no reference to L and whose suffix holds no further
location record for L). -/
theorem claim1_location_dedup {α : Type} (c : Ctx α) (ops : List (Op α))
    (L : Location) (hL : L ≠ 0) (href : ∃ op ∈ ops, opRefs L op = true) :
    LocDedup L (encRun (jsonFns c) [] ops).2 ∧
    LocDedup L (encRun (protoFns c) [] ops).2 :=
  ⟨encRun_dedup (jsonFns c) hL ops href, encRun_dedup (protoFns c) hL ops href⟩

theorem claim1_location_dedup_witness :
    ((42 : Location) ≠ 0) ∧
    (∃ op ∈ [Op.message (α := Nat)
        { loc := 42, time := 1, format := strBytes "x", args := none } zeroID,
      Op.spanFinished zeroID 5,
      Op.message { loc := 42, time := 2, format := strBytes "y", args := none } zeroID],
      opRefs 42 op = true) ∧
    (LocDedup 42 (encRun (jsonFns sampleCtx) []
        [Op.message { loc := 42, time := 1, format := strBytes "x", args := none } zeroID,
         Op.spanFinished zeroID 5,
         Op.message { loc := 42, time := 2, format := strBytes "y", args := none }
           zeroID]).2 ∧
     LocDedup 42 (encRun (protoFns sampleCtx) []
        [Op.message { loc := 42, time := 1, format := strBytes "x", args := none } zeroID,
         Op.spanFinished zeroID 5,
         Op.message { loc := 42, time := 2, format := strBytes "y", args := none }
           zeroID]).2) :=
  ⟨by decide, by decide,
    claim1_location_dedup sampleCtx
      [Op.message { loc := 42, time := 1, format := strBytes "x", args := none } zeroID,
       Op.spanFinished zeroID 5,
       Op.message { loc := 42, time := 2, format := strBytes "y", args := none } zeroID]
      42 (by decide) (by decide)⟩

theorem newLine_last (b : Bytes) : (newLine b).getLast? = some 10 := by
  unfold newLine
  by_cases h : b.getLast? = some 10
  · simp [h]
  · simp [h]

theorem consoleMessage_write {α : Type} (cfg : ConsoleCfg) (c : Ctx α) (m : Msg α)
    (sid : SpanID) (ws : List Bytes) (h : consoleMessage cfg c m sid = some ws) :
    ∃ p, ws = [p] ∧ p.getLast? = some 10 := by
  unfold consoleMessage at h
  split at h
  · exact absurd h (by simp)
  · split at h
    · exact absurd h (by simp)
    · rw [Option.some.injEq] at h
      exact ⟨_, h.symm, newLine_last _⟩

theorem consoleSpanStarted_write {α : Type} (cfg : ConsoleCfg) (c : Ctx α)
    (sid par : SpanID) (st : Int) (loc : Location) (ws : List Bytes)
    (h : consoleSpanStarted cfg c sid par st loc = some ws) :
    (cfg.flags &&& Lspans = 0 ∧ ws = []) ∨ ∃ p, ws = [p] ∧ p.getLast? = some 10 := by
  unfold consoleSpanStarted at h
  split at h
  · rw [Option.some.injEq] at h
    exact Or.inl ⟨by assumption, h.symm⟩
  · split at h
    · exact absurd h (by simp)
    · split at h
      · rw [Option.some.injEq] at h
        refine Or.inr ⟨_, h.symm, ?_⟩
        have hlit : (strBytes "Span started\n").getLast? = some 10 := by decide
        simp [List.getLast?_append, hlit]
      · split at h
        · rw [Option.some.injEq] at h
          refine Or.inr ⟨_, h.symm, ?_⟩
          simp [List.getLast?_append]
        · exact absurd h (by simp)

theorem consoleSpanFinished_write {α : Type} (cfg : ConsoleCfg) (c : Ctx α)
    (sid : SpanID) (el : Int) (ws : List Bytes)
    (h : consoleSpanFinished cfg c sid el = some ws) :
    (cfg.flags &&& Lspans = 0 ∧ ws = []) ∨ ∃ p, ws = [p] ∧ p.getLast? = some 10 := by
  unfold consoleSpanFinished at h
  split at h
  · rw [Option.some.injEq] at h
    exact Or.inl ⟨by assumption, h.symm⟩
  · split at h
    · exact absurd h (by simp)
    · rw [Option.some.injEq] at h
      refine Or.inr ⟨_, h.symm, ?_⟩
      have hlit : (strBytes "ms\n").getLast? = some 10 := by decide
      simp [List.getLast?_append, hlit]

theorem lastTen_append (a : Bytes) {b : Bytes} (h : b.getLast? = some 10) :
    (a ++ b).getLast? = some 10 := by
  rw [List.getLast?_append_of_ne_nil]
  · exact h
  · intro hcon
    subst hcon
    simp at h

theorem jsonLabels_last (ls : List Bytes) (sid : SpanID) :
    (jsonLabelsPayload ls sid).getLast? = some 10 := by
  unfold jsonLabelsPayload
  exact lastTen_append _ (by decide)

theorem jsonMessage_last {α : Type} (c : Ctx α) (m : Msg α) (sid : SpanID) :
    (jsonMessagePayload c m sid).getLast? = some 10 := by
  unfold jsonMessagePayload
  exact lastTen_append _ (by decide)

theorem jsonMetric_last {α : Type} (c : Ctx α) (mt : GoMetric) (sid : SpanID) :
    (jsonMetricPayload c mt sid).getLast? = some 10 := by
  unfold jsonMetricPayload
  exact lastTen_append _ (by decide)

theorem jsonSpanStarted_last (sid par : SpanID) (st : Int) (loc : Location) :
    (jsonSpanStartedPayload sid par st loc).getLast? = some 10 := by
  unfold jsonSpanStartedPayload
  exact lastTen_append _ (by decide)

theorem jsonSpanFinished_last (sid : SpanID) (el : Int) :
    (jsonSpanFinishedPayload sid el).getLast? = some 10 := by
  unfold jsonSpanFinishedPayload
  exact lastTen_append _ (by decide)

theorem jsonLocation_last {α : Type} (c : Ctx α) (loc : Location) :
    (jsonLocationPayload c loc).getLast? = some 10 := by
  unfold jsonLocationPayload
  exact lastTen_append _ (by decide)

theorem fieldList_length (t : Nat) (ls : List Bytes) :
    ((ls.map (fun l => appendTagVarint [] t l.length ++ l)).flatten).length
      = (ls.map (fun l => 1 + varintSize l.length + l.length)).sum := by
  induction ls with
  | nil => rfl
  | cons l rest ih =>
    simp only [List.map_cons, List.flatten_cons, List.length_append, ih, List.sum_cons]
    simp [appendTagVarint, appendVarint_length]
    omega

theorem protoLabels_framed (ls : List Bytes) (sid : SpanID) :
    Framed (protoLabelsPayload ls sid) := by
  refine ⟨_, _, rfl, ?_⟩
  by_cases h : sid = zeroID
  · simp only [h, ne_eq, not_true_eq_false, if_neg, ite_false, List.length_append,
      fieldList_length, List.nil_append]
    simp [appendTagVarint, appendVarint_length]
    omega
  · simp only [ne_eq, h, not_false_eq_true, ite_true, List.length_append,
      fieldList_length]
    simp [appendTagVarint, appendVarint_length]
    omega

theorem protoMessage_framed {α : Type} (c : Ctx α) (m : Msg α) (sid : SpanID) :
    Framed (protoMessagePayload c m sid) := by
  refine ⟨_, _, rfl, ?_⟩
  by_cases h : sid = zeroID <;> by_cases h0 : m.loc = 0 <;>
    simp [h, h0, appendTagVarint, appendVarint_length, le64] <;> omega

theorem protoMetric_framed (mt : GoMetric) (sid : SpanID) :
    Framed (protoMetricPayload mt sid) := by
  refine ⟨_, _, rfl, ?_⟩
  by_cases h : sid = zeroID
  · simp only [h, ne_eq, not_true_eq_false, if_neg, ite_false, List.length_append,
      fieldList_length, List.nil_append]
    simp [appendTagVarint, appendVarint_length, le64]
    omega
  · simp only [ne_eq, h, not_false_eq_true, ite_true, List.length_append,
      fieldList_length]
    simp [appendTagVarint, appendVarint_length, le64]
    omega

theorem protoSpanStarted_framed (sid par : SpanID) (st : Int) (loc : Location) :
    Framed (protoSpanStartedPayload sid par st loc) := by
  refine ⟨_, _, rfl, ?_⟩
  by_cases h : par = zeroID <;> by_cases h0 : loc = 0 <;>
    simp [h, h0, appendTagVarint, appendVarint_length, le64] <;> omega

theorem protoSpanFinished_framed (sid : SpanID) (el : Int) :
    Framed (protoSpanFinishedPayload sid el) := by
  refine ⟨_, _, rfl, ?_⟩
  simp [appendTagVarint, appendVarint_length]
  omega

theorem protoLocation_framed {α : Type} (c : Ctx α) (loc : Location) :
    Framed (protoLocationPayload c loc) := by
  refine ⟨_, _, rfl, ?_⟩
  simp [appendTagVarint, appendVarint_length]
  omega

theorem encStep_shape {α : Type} (f : EncFns α) (seen : List Location) (op : Op α) :
    ∃ pre r p, (encStep f seen op).2 = pre ++ [Item.eventRec r p] ∧
      (pre = [] ∨ ∃ l q, pre = [Item.locRec l q]) := by
  cases op with
  | labels ls sid => exact ⟨[], none, f.labelsPayload ls sid, rfl, Or.inl rfl⟩
  | metric mt sid => exact ⟨[], none, f.metricPayload mt sid, rfl, Or.inl rfl⟩
  | spanFinished sid el => exact ⟨[], none, f.finishPayload sid el, rfl, Or.inl rfl⟩
  | message m sid =>
    by_cases hmem : m.loc ∈ seen
    · refine ⟨[], if m.loc = 0 then none else some m.loc, f.msgPayload m sid, ?_,
        Or.inl rfl⟩
      simp [encStep, hmem]
    · by_cases h0 : m.loc = 0
      · refine ⟨[], if m.loc = 0 then none else some m.loc, f.msgPayload m sid, ?_,
          Or.inl rfl⟩
        simp [encStep, locEffect, hmem, h0]
      · refine ⟨[Item.locRec m.loc (f.locPayload m.loc)],
          if m.loc = 0 then none else some m.loc, f.msgPayload m sid, ?_,
          Or.inr ⟨_, _, rfl⟩⟩
        simp [encStep, locEffect, hmem, h0]
  | spanStarted sid par st loc =>
    by_cases hmem : loc ∈ seen
    · refine ⟨[], if loc = 0 then none else some loc, f.startPayload sid par st loc,
        ?_, Or.inl rfl⟩
      simp [encStep, hmem]
    · by_cases h0 : loc = 0
      · refine ⟨[], if loc = 0 then none else some loc, f.startPayload sid par st loc,
          ?_, Or.inl rfl⟩
        simp [encStep, locEffect, hmem, h0]
      · refine ⟨[Item.locRec loc (f.locPayload loc)],
          if loc = 0 then none else some loc, f.startPayload sid par st loc, ?_,
          Or.inr ⟨_, _, rfl⟩⟩
        simp [encStep, locEffect, hmem, h0]

/-- C2 counterexample: on a JSONWriter whose dedup set does not yet hold
location 42, a single Message carrying location 42 performs its one write
with a payload that is the location record followed by the message record,
strictly larger than the one complete message record the claim asserts the
payload equals. -/
theorem claim2_counterexample :
    opWrite (jsonFns sampleCtx) []
      (Op.message { loc := 42, time := 1, format := strBytes "x", args := none }
        zeroID)
    ≠ jsonMessagePayload sampleCtx
      { loc := 42, time := 1, format := strBytes "x", args := none } zeroID := by
  decide

/-- C2 (amended): every operation of the three encoders performs exactly
one write to the sink (zero only for console span events dropped without
the Lspans flag, and none at all where the console header construction
would panic): for the deduplicating JSON and binary writers the single
write consists of the event's record preceded by at most one location
record; every JSON record is newline-terminated; every binary record is a
self-delimiting length-prefixed frame; and every console operation that
completes writes exactly one newline-terminated line. -/
theorem claim2_single_write {α : Type} (c : Ctx α) (f : EncFns α)
    (seen : List Location) (op : Op α) (cfg : ConsoleCfg) (m : Msg α)
    (mt : GoMetric) (lsb : List Bytes) (sid par : SpanID) (st el : Int)
    (loc : Location) (ws : List Bytes) :
    (∃ pre r p, (encStep f seen op).2 = pre ++ [Item.eventRec r p] ∧
      (pre = [] ∨ ∃ l q, pre = [Item.locRec l q])) ∧
    (jsonLabelsPayload lsb sid).getLast? = some 10 ∧
    (jsonMessagePayload c m sid).getLast? = some 10 ∧
    (jsonMetricPayload c mt sid).getLast? = some 10 ∧
    (jsonSpanStartedPayload sid par st loc).getLast? = some 10 ∧
    (jsonSpanFinishedPayload sid el).getLast? = some 10 ∧
    (jsonLocationPayload c loc).getLast? = some 10 ∧
    Framed (protoLabelsPayload lsb sid) ∧
    Framed (protoMessagePayload c m sid) ∧
    Framed (protoMetricPayload mt sid) ∧
    Framed (protoSpanStartedPayload sid par st loc) ∧
    Framed (protoSpanFinishedPayload sid el) ∧
    Framed (protoLocationPayload c loc) ∧
    (consoleMessage cfg c m sid = some ws → ∃ p, ws = [p] ∧ p.getLast? = some 10) ∧
    (consoleLabels cfg c lsb sid = some ws → ∃ p, ws = [p] ∧ p.getLast? = some 10) ∧
    (consoleMetric cfg c mt sid = some ws → ∃ p, ws = [p] ∧ p.getLast? = some 10) ∧
    (consoleSpanStarted cfg c sid par st loc = some ws →
      (cfg.flags &&& Lspans = 0 ∧ ws = []) ∨
        ∃ p, ws = [p] ∧ p.getLast? = some 10) ∧
    (consoleSpanFinished cfg c sid el = some ws →
      (cfg.flags &&& Lspans = 0 ∧ ws = []) ∨
        ∃ p, ws = [p] ∧ p.getLast? = some 10) :=
  ⟨encStep_shape f seen op,
    jsonLabels_last lsb sid, jsonMessage_last c m sid, jsonMetric_last c mt sid,
    jsonSpanStarted_last sid par st loc, jsonSpanFinished_last sid el,
    jsonLocation_last c loc,
    protoLabels_framed lsb sid, protoMessage_framed c m sid,
    protoMetric_framed mt sid, protoSpanStarted_framed sid par st loc,
    protoSpanFinished_framed sid el, protoLocation_framed c loc,
    fun h => consoleMessage_write cfg c m sid ws h,
    fun h => consoleMessage_write cfg c _ sid ws h,
    fun h => consoleMessage_write cfg c _ sid ws h,
    fun h => consoleSpanStarted_write cfg c sid par st loc ws h,
    fun h => consoleSpanFinished_write cfg c sid el ws h⟩

theorem setAt_eq_some_length {b b2 : Bytes} {i : Int} {v : Nat}
    (h : setAt b i v = some b2) : b2.length = b.length := by
  unfold setAt at h
  split at h
  · cases h
    simp
  · cases h

theorem setAt_eq_none_bounds {b : Bytes} {i : Int} {v : Nat}
    (h : setAt b i v = none) : ¬(0 ≤ i ∧ i < b.length) := by
  unfold setAt at h
  split at h
  · cases h
  · assumption

theorem getAt_eq_some {b : Bytes} {i : Int} {v : Nat} (h : getAt b i = some v) :
    0 ≤ i ∧ i < b.length ∧ v = b.getD i.toNat 0 := by
  unfold getAt at h
  split at h
  · rename_i hc
    cases h
    exact ⟨hc.1, hc.2, rfl⟩
  · cases h

theorem getAt_eq_none_bounds {b : Bytes} {i : Int}
    (h : getAt b i = none) : ¬(0 ≤ i ∧ i < b.length) := by
  unfold getAt at h
  split at h
  · cases h
  · assumption

theorem takeWhile_getD_true (p : Nat → Bool) :
    ∀ (s : Bytes) (i : Nat), i < (s.takeWhile p).length → p (s.getD i 0) = true := by
  intro s
  induction s with
  | nil => intro i h; simp at h
  | cons a t ih =>
    intro i h
    rw [List.takeWhile_cons] at h
    by_cases hp : p a
    · rw [if_pos hp] at h
      cases i with
      | zero => simpa using hp
      | succ i2 =>
        simp only [List.length_cons] at h
        rw [List.getD_cons_succ]
        exact ih i2 (by omega)
    · rw [if_neg hp] at h
      simp at h

theorem takeWhile_getD_false (p : Nat → Bool) :
    ∀ s : Bytes, (s.takeWhile p).length < s.length →
      p (s.getD (s.takeWhile p).length 0) = false := by
  intro s
  induction s with
  | nil => intro h; simp at h
  | cons a t ih =>
    intro h
    rw [List.takeWhile_cons] at h ⊢
    by_cases hp : p a
    · rw [if_pos hp] at h ⊢
      simp only [List.length_cons] at h ⊢
      rw [List.getD_cons_succ]
      exact ih (by omega)
    · rw [if_neg hp] at h ⊢
      simp only [List.length_nil, List.getD_cons_zero]
      simpa using hp

theorem getD_reverse {s : Bytes} {i : Nat} (h : i < s.length) :
    s.reverse.getD i 0 = s.getD (s.length - 1 - i) 0 := by
  have h2 : i < s.reverse.length := by simpa using h
  rw [List.getD_eq_getElem?_getD, List.getD_eq_getElem?_getD,
    List.getElem?_eq_getElem h2,
    List.getElem?_eq_getElem (by omega : s.length - 1 - i < s.length)]
  simp [List.getElem_reverse]

theorem trailingDigits_le_length (s : Bytes) : trailingDigits s ≤ s.length := by
  unfold trailingDigits
  have := (List.takeWhile_sublist (l := s.reverse) isDigitByte).length_le
  simpa using this

theorem trailingDigits_getD_digit {s : Bytes} {j : Nat} (h1 : 1 ≤ j)
    (h2 : j ≤ trailingDigits s) :
    isDigitByte (s.getD (s.length - j) 0) = true := by
  have hd := trailingDigits_le_length s
  have hj : j - 1 < (s.reverse.takeWhile isDigitByte).length := by
    unfold trailingDigits at h2
    omega
  have hres := takeWhile_getD_true isDigitByte s.reverse (j - 1) hj
  rw [getD_reverse (by omega : j - 1 < s.length)] at hres
  have hidx : s.length - 1 - (j - 1) = s.length - j := by omega
  rwa [hidx] at hres

theorem trailingDigits_getD_stop {s : Bytes} (h : trailingDigits s < s.length) :
    isDigitByte (s.getD (s.length - (trailingDigits s + 1)) 0) = false := by
  have hlen : (s.reverse.takeWhile isDigitByte).length = trailingDigits s := rfl
  have hres := takeWhile_getD_false isDigitByte s.reverse
    (by rw [List.length_reverse, hlen]; exact h)
  rw [hlen] at hres
  rw [getD_reverse (by omega : trailingDigits s < s.length)] at hres
  have hidx : s.length - 1 - trailingDigits s = s.length - (trailingDigits s + 1) := by
    omega
  rwa [hidx] at hres

theorem digitSuffixLoop_isSome (fname : Bytes) :
    ∀ (fuel j : Nat) (b : Bytes), 1 ≤ j → j ≤ trailingDigits fname + 1 →
      trailingDigits fname < fname.length → trailingDigits fname ≤ b.length →
      trailingDigits fname + 2 ≤ fuel + j →
      (digitSuffixLoop fname b j fuel).isSome := by
  intro fuel
  induction fuel with
  | zero =>
    intro j b h1 h2 h3 h4 h5
    omega
  | succ f ih =>
    intro j b h1 h2 h3 h4 h5
    unfold digitSuffixLoop
    split
    · rename_i heq
      exact absurd ⟨by omega, by omega⟩ (getAt_eq_none_bounds heq)
    · rename_i q heq
      obtain ⟨hi0, hi1, hqv⟩ := getAt_eq_some heq
      have hq2 : q = fname.getD (fname.length - j) 0 := by
        rw [hqv]
        congr 1
        omega
      by_cases hj : j = trailingDigits fname + 1
      · have hstop := trailingDigits_getD_stop h3
        rw [← hj] at hstop
        rw [if_pos ?_]
        · simp
        · rw [hq2]
          have := hstop
          simp only [isDigitByte, Bool.not_eq_false', decide_eq_true_eq] at this
          exact this
      · have hdig := trailingDigits_getD_digit (s := fname) h1 (by omega)
        simp only [isDigitByte, Bool.not_eq_true', decide_eq_false_iff_not] at hdig
        rw [if_neg (by rw [hq2]; exact hdig)]
        split
        · rename_i b2 heq2
          have hlen2 := setAt_eq_some_length heq2
          exact ih (j + 1) b2 (by omega) (by omega) h3 (by omega) (by omega)
        · rename_i heq2
          exact absurd ⟨by omega, by omega⟩ (setAt_eq_none_bounds heq2)

theorem digitCountF_le : ∀ (fuel q k : Nat), q < 10 ^ k → digitCountF fuel q ≤ k := by
  intro fuel
  induction fuel with
  | zero => intro q k h; simp [digitCountF]
  | succ f ih =>
    intro q k h
    unfold digitCountF
    by_cases hq : q = 0
    · simp [hq]
    · rw [if_neg hq]
      cases k with
      | zero =>
        have h1 : q < 1 := by simpa using h
        omega
      | succ k2 =>
        have hdiv : q / 10 < 10 ^ k2 := by
          rw [Nat.div_lt_iff_lt_mul (by omega)]
          calc q < 10 ^ (k2 + 1) := h
          _ = 10 ^ k2 * 10 := by rw [Nat.pow_succ]
        have := ih (q / 10) k2 hdiv
        omega

theorem digitCount_le {q k : Nat} (h : q < 10 ^ k) : digitCount q ≤ k :=
  digitCountF_le (q + 1) q k h

theorem writeLineDigits_isSome :
    ∀ (n : Nat) (b : Bytes) (i : Int) (q : Nat), 0 ≤ i → i.toNat + n < b.length →
      (writeLineDigits b i q n).isSome := by
  intro n
  induction n with
  | zero => intro b i q h0 h1; simp [writeLineDigits]
  | succ n2 ih =>
    intro b i q h0 h1
    unfold writeLineDigits
    split
    · rename_i b2 heq
      apply ih
      · exact h0
      · rw [setAt_eq_some_length heq]
        omega
    · rename_i heq
      exfalso
      exact setAt_eq_none_bounds heq ⟨by omega, by omega⟩

theorem shortfileBlock_isSome (wid : Nat) (b file0 : Bytes) (line : Nat)
    (hw1 : wid ≤ 144) (hn : 1 + digitCount line ≤ wid) :
    (shortfileBlock wid b file0 line).isSome := by
  unfold shortfileBlock spacesTake
  rw [if_pos hw1]
  simp only
  have hcol : ((pathBase file0 ++ List.replicate wid 32).take wid).length = wid := by
    simp only [List.length_take, List.length_append, List.length_replicate]
    omega
  have hblen : (b ++ (pathBase file0 ++ List.replicate wid 32).take wid).length
      = b.length + wid := by
    simp only [List.length_append, hcol]
  by_cases hcase : wid < (pathBase file0).length + (1 + digitCount line)
  · rw [if_pos hcase]
    split
    · rename_i b2 heq
      apply writeLineDigits_isSome
      · omega
      · rw [setAt_eq_some_length heq, hblen]
        omega
    · rename_i heq
      have hcon := setAt_eq_none_bounds heq
      rw [hblen] at hcon
      exact absurd ⟨by omega, by omega⟩ hcon
  · rw [if_neg hcase]
    split
    · rename_i b2 heq
      apply writeLineDigits_isSome
      · omega
      · rw [setAt_eq_some_length heq, hblen]
        omega
    · rename_i heq
      have hcon := setAt_eq_none_bounds heq
      rw [hblen] at hcon
      exact absurd ⟨by omega, by omega⟩ hcon

theorem longfileBlock_isSome (b file : Bytes) (line : Nat)
    (hn : 1 + digitCount line ≤ 12) :
    (longfileBlock b file line).isSome := by
  unfold longfileBlock
  apply writeLineDigits_isSome
  · omega
  · simp only [List.length_append, List.length_cons, List.length_replicate]
    omega
theorem funcHeaderPart_isSome {α : Type} (cfg : ConsoleCfg) (c : Ctx α)
    (loc : Location) (b : Bytes)
    (hfn : cfg.funcname ≤ 144)
    (hdig : trailingDigits (funcTrim (c.nfl loc).1) ≤ cfg.funcname) :
    (funcHeaderPart cfg c loc b).isSome := by
  unfold funcHeaderPart
  by_cases h1 : cfg.flags &&& (Ltypefunc ||| Lfuncname) = 0
  · simp [h1]
  rw [if_neg h1]
  by_cases h2 : cfg.flags &&& Lfuncname ≠ 0
  · rw [if_pos h2]
    by_cases h3 : (funcTrim (c.nfl loc).1).length ≤ cfg.funcname
    · rw [if_pos h3]
      split
      · simp
      · rename_i heq
        unfold spacesTake at heq
        rw [if_pos hfn] at heq
        cases heq
    · rw [if_neg h3]
      have hsome := digitSuffixLoop_isSome (funcTrim (c.nfl loc).1)
        ((funcTrim (c.nfl loc).1).length + 2) 1
        (b ++ (funcTrim (c.nfl loc).1).take cfg.funcname)
        (by omega) (by omega) (by omega) ?_ (by omega)
      · split
        · simp
        · rename_i heq
          rw [heq] at hsome
          simp at hsome
      · simp only [List.length_append, List.length_take]
        omega
  · rw [if_neg h2]
    simp

theorem fileHeaderPart_isSome {α : Type} (cfg : ConsoleCfg) (c : Ctx α)
    (loc : Location) (b : Bytes)
    (hsf : cfg.shortfile ≤ 144)
    (hline : 1 + digitCount (c.nfl loc).2.2 ≤ cfg.shortfile)
    (hline12 : 1 + digitCount (c.nfl loc).2.2 ≤ 12) :
    (fileHeaderPart cfg c loc b).isSome := by
  unfold fileHeaderPart
  by_cases h1 : cfg.flags &&& (Llongfile ||| Lshortfile) = 0
  · simp [h1]
  rw [if_neg h1]
  have hblk : (if cfg.flags &&& Lshortfile ≠ 0
      then shortfileBlock cfg.shortfile b (c.nfl loc).2.1 (c.nfl loc).2.2
      else longfileBlock b (c.nfl loc).2.1 (c.nfl loc).2.2).isSome := by
    by_cases h2 : cfg.flags &&& Lshortfile ≠ 0
    · rw [if_pos h2]
      exact shortfileBlock_isSome _ _ _ _ hsf hline
    · rw [if_neg h2]
      exact longfileBlock_isSome _ _ _ hline12
  split
  · simp
  · rename_i heq
    rw [heq] at hblk
    simp at hblk

theorem buildHeader_isSome {α : Type} (cfg : ConsoleCfg) (c : Ctx α)
    (loc : Location) (ts : Int)
    (hsf : cfg.shortfile ≤ 144) (hfn : cfg.funcname ≤ 144)
    (hline : 1 + digitCount (c.nfl loc).2.2 ≤ cfg.shortfile)
    (hline12 : 1 + digitCount (c.nfl loc).2.2 ≤ 12)
    (hdig : trailingDigits (funcTrim (c.nfl loc).1) ≤ cfg.funcname) :
    (buildHeader cfg c loc ts).isSome := by
  unfold buildHeader
  split
  · rename_i heq
    have := fileHeaderPart_isSome cfg c loc (timeHeaderPart cfg c ts) hsf hline hline12
    rw [heq] at this
    simp at this
  · rename_i b heq
    exact funcHeaderPart_isSome cfg c loc b hfn hdig

theorem consoleMessage_isSome {α : Type} (cfg : ConsoleCfg) (c : Ctx α) (m : Msg α)
    (sid : SpanID)
    (hsf : cfg.shortfile ≤ 144) (hfn : cfg.funcname ≤ 144) (hid : cfg.idWidth ≤ 32)
    (hline : 1 + digitCount (c.nfl m.loc).2.2 ≤ cfg.shortfile)
    (hline12 : 1 + digitCount (c.nfl m.loc).2.2 ≤ 12)
    (hdig : trailingDigits (funcTrim (c.nfl m.loc).1) ≤ cfg.funcname) :
    (consoleMessage cfg c m sid).isSome := by
  unfold consoleMessage
  split
  · rename_i heq
    have := buildHeader_isSome cfg c m.loc m.time hsf hfn hline hline12 hdig
    rw [heq] at this
    simp at this
  · rename_i b0 heq
    split
    · rename_i heq2
      exfalso
      by_cases hm : cfg.flags &&& Lmessagespan ≠ 0
      · rw [if_pos hm, if_pos hid] at heq2
        cases heq2
      · rw [if_neg hm] at heq2
        cases heq2
    · simp

theorem consoleSpanStarted_isSome {α : Type} (cfg : ConsoleCfg) (c : Ctx α)
    (sid par : SpanID) (st : Int) (loc : Location)
    (hsf : cfg.shortfile ≤ 144) (hfn : cfg.funcname ≤ 144) (hid : cfg.idWidth ≤ 32)
    (hline : 1 + digitCount (c.nfl loc).2.2 ≤ cfg.shortfile)
    (hline12 : 1 + digitCount (c.nfl loc).2.2 ≤ 12)
    (hdig : trailingDigits (funcTrim (c.nfl loc).1) ≤ cfg.funcname) :
    (consoleSpanStarted cfg c sid par st loc).isSome := by
  unfold consoleSpanStarted
  by_cases hs : cfg.flags &&& Lspans = 0
  · simp [hs]
  rw [if_neg hs]
  have hhd : (consoleSpanHeader cfg c sid loc st).isSome := by
    unfold consoleSpanHeader
    split
    · rename_i heq
      have := buildHeader_isSome cfg c loc st hsf hfn hline hline12 hdig
      rw [heq] at this
      simp at this
    · rw [if_pos hid]
      simp
  split
  · rename_i heq
    rw [heq] at hhd
    simp at hhd
  · rename_i b heq
    by_cases hp : par = zeroID
    · rw [if_pos hp]
      simp
    · rw [if_neg hp, if_pos hid]
      simp

theorem consoleSpanFinished_isSome {α : Type} (cfg : ConsoleCfg) (c : Ctx α)
    (sid : SpanID) (el : Int)
    (hsf : cfg.shortfile ≤ 144) (hfn : cfg.funcname ≤ 144) (hid : cfg.idWidth ≤ 32)
    (hline : 1 + digitCount (c.nfl 0).2.2 ≤ cfg.shortfile)
    (hline12 : 1 + digitCount (c.nfl 0).2.2 ≤ 12)
    (hdig : trailingDigits (funcTrim (c.nfl 0).1) ≤ cfg.funcname) :
    (consoleSpanFinished cfg c sid el).isSome := by
  unfold consoleSpanFinished
  by_cases hs : cfg.flags &&& Lspans = 0
  · simp [hs]
  rw [if_neg hs]
  have hhd : (consoleSpanHeader cfg c sid 0 c.nowNs).isSome := by
    unfold consoleSpanHeader
    split
    · rename_i heq
      have := buildHeader_isSome cfg c 0 c.nowNs hsf hfn hline hline12 hdig
      rw [heq] at this
      simp at this
    · rw [if_pos hid]
      simp
  split
  · rename_i heq
    rw [heq] at hhd
    simp at hhd
  · simp
/-- C4 counterexample: encoding is not total for every resolver value.
With the Lfuncname flag and a resolver whose function name is a run of
twenty-two digits (longer than the 18-character Funcname column), the
trailing-digit rescue loop of buildHeader walks past the start of both the
name and the header buffer: an index-out-of-range panic, modelled as none,
so ConsoleWriter.Message never reaches its write. -/
theorem claim4_counterexample :
    buildHeader (defaultCfg Lfuncname)
      { sampleCtx with nfl := fun _ => (strBytes "1234567890123456789012",
          strBytes "f.go", 1) } 5 0 = none ∧
    consoleMessage (defaultCfg Lfuncname)
      { sampleCtx with nfl := fun _ => (strBytes "1234567890123456789012",
          strBytes "f.go", 1) }
      { loc := 5, time := 0, format := strBytes "m", args := none } zeroID
      = none := by
  decide

/-- C4 (amended): with the NewConsoleWriter column widths in their legal
ranges, every console operation runs to completion and performs its write,
provided each resolved line number stays below 10 to the 11 (two digit
loops write it into fixed columns) and the trimmed function name of every
location carries a trailing digit run no longer than the Funcname column
(otherwise the digit rescue loop of the counterexample panics).  The JSON
and binary encoders are total functions of the embedding with no
partiality point, and no operation of any encoder produces an encoding
error: the only error either writer can return is the sink's own. -/
theorem claim4_encoding_total {α : Type} (cfg : ConsoleCfg) (c : Ctx α) (m : Msg α)
    (mt : GoMetric) (lsb : List Bytes) (sid par : SpanID) (st el ts : Int)
    (loc : Location)
    (hsf : cfg.shortfile ≤ 144) (hsf12 : 12 ≤ cfg.shortfile)
    (hfn : cfg.funcname ≤ 144) (hid : cfg.idWidth ≤ 32)
    (hline : ∀ l, (c.nfl l).2.2 < 10 ^ 11)
    (hdig : ∀ l, trailingDigits (funcTrim (c.nfl l).1) ≤ cfg.funcname) :
    (buildHeader cfg c loc ts).isSome ∧
    (consoleMessage cfg c m sid).isSome ∧
    (consoleLabels cfg c lsb sid).isSome ∧
    (consoleMetric cfg c mt sid).isSome ∧
    (consoleSpanStarted cfg c sid par st loc).isSome ∧
    (consoleSpanFinished cfg c sid el).isSome := by
  have hln : ∀ l, 1 + digitCount (c.nfl l).2.2 ≤ cfg.shortfile := by
    intro l
    have := digitCount_le (hline l)
    omega
  have hln12 : ∀ l, 1 + digitCount (c.nfl l).2.2 ≤ 12 := by
    intro l
    have := digitCount_le (hline l)
    omega
  refine ⟨buildHeader_isSome cfg c loc ts hsf hfn (hln loc) (hln12 loc) (hdig loc),
    consoleMessage_isSome cfg c m sid hsf hfn hid (hln m.loc) (hln12 m.loc)
      (hdig m.loc), ?_, ?_,
    consoleSpanStarted_isSome cfg c sid par st loc hsf hfn hid (hln loc)
      (hln12 loc) (hdig loc),
    consoleSpanFinished_isSome cfg c sid el hsf hfn hid (hln 0) (hln12 0) (hdig 0)⟩
  · exact consoleMessage_isSome cfg c _ sid hsf hfn hid (hln c.caller)
      (hln12 c.caller) (hdig c.caller)
  · exact consoleMessage_isSome cfg c _ sid hsf hfn hid (hln c.caller)
      (hln12 c.caller) (hdig c.caller)

theorem claim4_encoding_total_witness :
    ((defaultCfg 1171).shortfile ≤ 144) ∧ (12 ≤ (defaultCfg 1171).shortfile) ∧
    ((defaultCfg 1171).funcname ≤ 144) ∧ ((defaultCfg 1171).idWidth ≤ 32) ∧
    (∀ l, ((sampleCtx.nfl l).2.2 : Nat) < 10 ^ 11) ∧
    (∀ l, trailingDigits (funcTrim (sampleCtx.nfl l).1) ≤ (defaultCfg 1171).funcname) ∧
    ((buildHeader (defaultCfg 1171) sampleCtx 3 0).isSome ∧
      (consoleMessage (defaultCfg 1171) sampleCtx
        { loc := 3, time := 0, format := strBytes "hi", args := none } zeroID).isSome ∧
      (consoleLabels (defaultCfg 1171) sampleCtx [[97]] zeroID).isSome ∧
      (consoleMetric (defaultCfg 1171) sampleCtx
        { name := [110], value := 3, labels := [] } zeroID).isSome ∧
      (consoleSpanStarted (defaultCfg 1171) sampleCtx zeroID zeroID 0 3).isSome ∧
      (consoleSpanFinished (defaultCfg 1171) sampleCtx zeroID 9).isSome) := by
  have h17 : ((17 : Nat) < 10 ^ 11) := by decide
  have hd : trailingDigits (funcTrim (strBytes "main.main")) ≤ 18 := by decide
  exact ⟨by decide, by decide, by decide, by decide, fun _ => h17, fun _ => hd,
    claim4_encoding_total (defaultCfg 1171) sampleCtx
      { loc := 3, time := 0, format := strBytes "hi", args := none }
      { name := [110], value := 3, labels := [] } [[97]] zeroID zeroID 0 9 0 3
      (by decide) (by decide) (by decide) (by decide)
      (fun _ => h17) (fun _ => hd)⟩

theorem claim2_single_write_witness :
    (jsonSpanFinishedPayload zeroID 7).getLast? = some 10 :=
  (claim2_single_write sampleCtx (jsonFns sampleCtx) [] (Op.spanFinished zeroID 5)
    (defaultCfg 19) { loc := 5, time := 0, format := strBytes "hi", args := none }
    { name := [110], value := 3, labels := [] } [[97]] zeroID zeroID 0 7 3
    []).2.2.2.2.2.1

end Tlog
